import Mathlib

/-!
Shallow embedding of the SparkVote backend's core logic:
the results aggregator (`calculateResults` in votingController.js),
the voting-window evaluator (the `votingStatus` virtual of the Event schema
and the inline window check in `submitVote`), and the vote-intake flow
(`submitVote` in votingController.js).

JavaScript numbers are modelled as rationals (`Rat`); all arithmetic in the
modelled code paths is exact on the inputs under consideration.  JavaScript
plain objects with string keys are modelled as insertion-ordered association
lists (`JsMap`): setting a fresh key appends, setting an existing key updates
in place, `Object.keys`/`Object.values` read in insertion order, matching the
ECMAScript ordinary-object semantics for non-index string keys.
-/

namespace SparkVote

/-- Embedded group sub-document (Event.model.js `GroupSchema`). -/
structure Group where
  id : String
  name : String
  weight : Rat
  password : Option String
deriving Repr, DecidableEq, Inhabited

/-- Embedded project sub-document (Event.model.js `ProjectSchema`). -/
structure Project where
  id : String
  name : String
  description : String
  teamMembers : List String
deriving Repr, DecidableEq, Inhabited

/-- Embedded criterion sub-document (Event.model.js `criteria`). -/
structure Criterion where
  name : String
  maxScore : Rat
deriving Repr, DecidableEq, Inhabited

/-- Event document (Event.model.js `EventSchema`).  `isVotingOpen` is the
tri-state manual override: `none` = auto by window, `some true` = forced open,
`some false` = forced closed. -/
structure Event where
  id : String
  date : String
  startTime : String
  closeTime : String
  isActive : Bool
  isVotingOpen : Option Bool
  groups : List Group
  projects : List Project
  criteria : List Criterion
deriving Repr, DecidableEq, Inhabited

/-- Vote document (Vote.model.js `VoteSchema`).  `scores` is the
criterion-name-keyed numeric map, in insertion order. -/
structure Vote where
  event : String
  project : String
  group : String
  scores : List (String × Rat)
  voterSessionId : String
deriving Repr, DecidableEq, Inhabited

/-- A JavaScript plain object with string keys: insertion-ordered entries. -/
abbrev JsMap (α : Type) := List (String × α)

/-- `m[k]` on a JS object (`undefined` becomes `none`). -/
def jsGet {α : Type} (m : JsMap α) (k : String) : Option α :=
  (m.find? (fun p => p.1 = k)).map (fun p => p.2)

/-- `m[k] = v` on a JS object: update in place if the key exists,
append otherwise. -/
def jsSet {α : Type} (m : JsMap α) (k : String) (v : α) : JsMap α :=
  if m.any (fun p => p.1 = k) then
    m.map (fun p => if p.1 = k then (k, v) else p)
  else m ++ [(k, v)]

/-- In-place mutation `f` of the value at key `k` (a no-op when the key is
absent; the modelled code only mutates keys it has just looked up). -/
def jsModify {α : Type} (m : JsMap α) (k : String) (f : α → α) : JsMap α :=
  m.map (fun p => if p.1 = k then (p.1, f p.2) else p)

/-- `Object.keys m`, in insertion order. -/
def jsKeys {α : Type} (m : JsMap α) : List String :=
  m.map (fun p => p.1)

/-- `Object.values m`, in insertion order. -/
def jsValues {α : Type} (m : JsMap α) : List α :=
  m.map (fun p => p.2)

/-- Build a JS object by assigning `key x ↦ val x` for each `x` in order
(the `forEach`-over-a-list initialisation pattern of `calculateResults`). -/
def buildMap {α β : Type} (key : α → String) (val : α → β) (l : List α) : JsMap β :=
  l.foldl (fun m x => jsSet m (key x) (val x)) []

/-- `Set.prototype.add`: insert if absent (JS sets keep insertion order). -/
def setAdd (s : List String) (x : String) : List String :=
  if x ∈ s then s else s ++ [x]

/-- Per-criterion accumulator of `calculateResults` (`criteriaScores`
entries `{ total, count }`, with `average` attached in the averages pass). -/
structure CriterionStat where
  total : Rat
  count : Nat
  average : Rat
deriving Repr, DecidableEq, Inhabited

/-- Per-(project, group) accumulator of `calculateResults`
(`projectGroupScores` entries `{ total, count }`). -/
structure PGStat where
  total : Rat
  count : Nat
deriving Repr, DecidableEq, Inhabited

/-- Per-project result record of `calculateResults`. -/
structure ProjectResult where
  id : String
  name : String
  description : String
  teamMembers : List String
  totalScore : Rat
  averageScore : Rat
  voteCount : Nat
  criteriaScores : JsMap CriterionStat
  groupAverages : JsMap Rat
  finalScore : Rat
  rank : Nat
deriving Repr, DecidableEq, Inhabited

/-- Per-group result record of `calculateResults`. -/
structure GroupResult where
  id : String
  name : String
  weight : Rat
  totalScore : Rat
  voteCount : Nat
  voterCount : Nat
  rank : Nat
deriving Repr, DecidableEq, Inhabited

/-- The weight actually used for a group: the override entry when the caller
supplied one for this group id, else the stored weight
(`groupWeights && groupWeights[gid] !== undefined ? groupWeights[gid] : group.weight`). -/
def effectiveWeight (groupWeights : Option (JsMap Rat)) (g : Group) : Rat :=
  match groupWeights with
  | some m =>
    match jsGet m g.id with
    | some w => w
    | none => g.weight
  | none => g.weight

/-- Initial per-project record (`calculateResults`, projects init loop). -/
def initProjectResult (p : Project) : ProjectResult :=
  { id := p.id, name := p.name, description := p.description,
    teamMembers := p.teamMembers, totalScore := 0, averageScore := 0,
    voteCount := 0, criteriaScores := [], groupAverages := [],
    finalScore := 0, rank := 0 }

/-- Initial per-group record (`calculateResults`, groups init loop). -/
def initGroupResult (groupWeights : Option (JsMap Rat)) (g : Group) : GroupResult :=
  { id := g.id, name := g.name, weight := effectiveWeight groupWeights g,
    totalScore := 0, voteCount := 0, voterCount := 0, rank := 0 }

/-- `projectResults` after initialisation, keyed by project id. -/
def initProjectResults (e : Event) : JsMap ProjectResult :=
  buildMap (fun p => p.id) initProjectResult e.projects

/-- `groupResults` after initialisation, keyed by group id. -/
def initGroupResults (groupWeights : Option (JsMap Rat)) (e : Event) : JsMap GroupResult :=
  buildMap (fun g => g.id) (initGroupResult groupWeights) e.groups

/-- `groupIdToName`, built in the same loop as `groupResults`. -/
def groupIdToName (e : Event) : JsMap String :=
  buildMap (fun g => g.id) (fun g => g.name) e.groups

/-- `groupVoters`, one empty set per group id. -/
def initGroupVoters (e : Event) : JsMap (List String) :=
  buildMap (fun g => g.id) (fun _ => []) e.groups

/-- `projectGroupScores`: for every project key, a zeroed per-group-map. -/
def initPGScores (pids gids : List String) : JsMap (JsMap PGStat) :=
  buildMap (fun pid => pid) (fun _ => buildMap (fun gid => gid) (fun _ => ⟨0, 0⟩) gids) pids

/-- The mutable state threaded through the votes loop of `calculateResults`. -/
structure AggState where
  projectResults : JsMap ProjectResult
  groupResults : JsMap GroupResult
  groupVoters : JsMap (List String)
  pgScores : JsMap (JsMap PGStat)
deriving Repr, DecidableEq

/-- The state at the top of the votes loop. -/
def initAggState (groupWeights : Option (JsMap Rat)) (e : Event) : AggState :=
  let prs := initProjectResults e
  let grs := initGroupResults groupWeights e
  { projectResults := prs, groupResults := grs,
    groupVoters := initGroupVoters e,
    pgScores := initPGScores (jsKeys prs) (jsKeys grs) }

/-- `projectTotal`: the sum of a vote's per-criterion scores, exactly as the
inner `vote.scores.forEach` accumulates it. -/
def voteTotal (v : Vote) : Rat :=
  (v.scores.map (fun p => p.2)).sum

/-- The inner `vote.scores.forEach` update of `criteriaScores`. -/
def addScores (cs : JsMap CriterionStat) (scores : List (String × Rat)) : JsMap CriterionStat :=
  scores.foldl
    (fun m ks =>
      let cur := match jsGet m ks.1 with
        | some c => c
        | none => ⟨0, 0, 0⟩
      jsSet m ks.1 ⟨cur.total + ks.2, cur.count + 1, cur.average⟩)
    cs

/-- One iteration of `votes.forEach` in `calculateResults`: a vote whose
project id or group id has no record is skipped entirely. -/
def applyVote (st : AggState) (v : Vote) : AggState :=
  match jsGet st.projectResults v.project, jsGet st.groupResults v.group with
  | some _, some _ =>
    let t := voteTotal v
    { projectResults :=
        jsModify st.projectResults v.project (fun pr =>
          { pr with
            voteCount := pr.voteCount + 1,
            criteriaScores := addScores pr.criteriaScores v.scores,
            totalScore := pr.totalScore + t }),
      groupResults :=
        jsModify st.groupResults v.group (fun gr =>
          { gr with voteCount := gr.voteCount + 1, totalScore := gr.totalScore + t }),
      groupVoters :=
        jsModify st.groupVoters v.group (fun s => setAdd s v.voterSessionId),
      pgScores :=
        jsModify st.pgScores v.project (fun m =>
          jsModify m v.group (fun pg => ⟨pg.total + t, pg.count + 1⟩)) }
  | _, _ => st

/-- The `groupResults[gid].voterCount = groupVoters[gid].size` pass. -/
def setVoterCounts (grs : JsMap GroupResult) (gv : JsMap (List String)) : JsMap GroupResult :=
  (jsKeys grs).foldl
    (fun m gid =>
      jsModify m gid (fun gr =>
        { gr with voterCount := match jsGet gv gid with
            | some s => s.length
            | none => 0 }))
    grs

/-- The inner `projectGroupScores[projectId]` lookup of the averages pass
(the modelled code never hits the `none` default). -/
def innerOf (pgs : JsMap (JsMap PGStat)) (pid : String) : JsMap PGStat :=
  match jsGet pgs pid with
  | some mm => mm
  | none => []

/-- One `groupAverages` assignment of the averages pass:
`project.groupAverages[groupIdToName[gid]] = avg`. -/
def gaStep (idToName : JsMap String) (inner : JsMap PGStat)
    (gm : JsMap Rat) (gid : String) : JsMap Rat :=
  let pg := match jsGet inner gid with
    | some x => x
    | none => ⟨0, 0⟩
  let avg := if pg.count > 0 then pg.total / (pg.count : Rat) else 0
  let gname := match jsGet idToName gid with
    | some n => n
    | none => ""
  jsSet gm gname avg

/-- The per-project body of the averages pass: `averageScore`, per-criterion
`average` (when the project has votes), then the name-keyed
`groupAverages`. -/
def averagesPass (gids : List String) (idToName : JsMap String)
    (pgs : JsMap (JsMap PGStat)) (pid : String) (pr : ProjectResult) : ProjectResult :=
  let pr1 :=
    if pr.voteCount > 0 then
      { pr with
        averageScore := pr.totalScore / (pr.voteCount : Rat),
        criteriaScores :=
          (jsKeys pr.criteriaScores).foldl
            (fun cm ck =>
              jsModify cm ck (fun c =>
                { c with average := c.total / (c.count : Rat) }))
            pr.criteriaScores }
    else pr
  let ga := gids.foldl (gaStep idToName (innerOf pgs pid)) pr1.groupAverages
  { pr1 with groupAverages := ga }

/-- The averages pass over every project key. -/
def setProjectAverages (gids : List String) (idToName : JsMap String)
    (pgs : JsMap (JsMap PGStat)) (prs : JsMap ProjectResult) : JsMap ProjectResult :=
  (jsKeys prs).foldl
    (fun m pid => jsModify m pid (averagesPass gids idToName pgs pid))
    prs

/-- One step of the weighted-sum accumulation of the final-score pass. -/
def wsStep (grs : JsMap GroupResult) (ga : JsMap Rat)
    (acc : Rat × Rat) (gid : String) : Rat × Rat :=
  match jsGet grs gid with
  | some g =>
    let avg := match jsGet ga g.name with
      | some a => a
      | none => 0
    (acc.1 + avg * g.weight, acc.2 + g.weight)
  | none => acc

/-- The per-project body of the final-score pass: weighted sum of the
name-keyed group averages over all groups, divided by the total weight when
that is positive, else `0`. -/
def finalScorePass (grs : JsMap GroupResult) (pr : ProjectResult) : ProjectResult :=
  let ws := (jsKeys grs).foldl (wsStep grs pr.groupAverages) ((0 : Rat), (0 : Rat))
  { pr with finalScore := if ws.2 > 0 then ws.1 / ws.2 else 0 }

/-- The final-score pass over every project key. -/
def setFinalScores (grs : JsMap GroupResult) (prs : JsMap ProjectResult) : JsMap ProjectResult :=
  (jsKeys prs).foldl
    (fun m pid => jsModify m pid (finalScorePass grs))
    prs

/-- `.map((x, index) => ({ ...x, rank: index + 1 }))` for projects,
with the running index made explicit. -/
def assignProjectRanks (n : Nat) : List ProjectResult → List ProjectResult
  | [] => []
  | p :: rest => { p with rank := n + 1 } :: assignProjectRanks (n + 1) rest

/-- `.map((x, index) => ({ ...x, rank: index + 1 }))` for groups. -/
def assignGroupRanks (n : Nat) : List GroupResult → List GroupResult
  | [] => []
  | g :: rest => { g with rank := n + 1 } :: assignGroupRanks (n + 1) rest

/-- The JS stable descending sort comparator `(a, b) => b.finalScore - a.finalScore`. -/
def projLE (a b : ProjectResult) : Bool :=
  decide (b.finalScore ≤ a.finalScore)

/-- The JS stable descending sort comparator `(a, b) => b.totalScore - a.totalScore`. -/
def groupLE (a b : GroupResult) : Bool :=
  decide (b.totalScore ≤ a.totalScore)

/-- The group records as they stand when the sorting phase begins. -/
def groupsFinal (e : Event) (votes : List Vote) (groupWeights : Option (JsMap Rat)) :
    JsMap GroupResult :=
  let st := votes.foldl applyVote (initAggState groupWeights e)
  setVoterCounts st.groupResults st.groupVoters

/-- The project records as they stand when the sorting phase begins. -/
def projectsFinal (e : Event) (votes : List Vote) (groupWeights : Option (JsMap Rat)) :
    JsMap ProjectResult :=
  let st := votes.foldl applyVote (initAggState groupWeights e)
  let grs := setVoterCounts st.groupResults st.groupVoters
  setFinalScores grs (setProjectAverages (jsKeys grs) (groupIdToName e) st.pgScores st.projectResults)

/-- The value returned by `calculateResults`. -/
structure Results where
  projects : List ProjectResult
  groups : List GroupResult
deriving Repr, DecidableEq

/-- `calculateResults(event, votes, groupWeights)` of votingController.js:
tally, average, weight, sort (stably, descending), and rank. -/
def calculateResults (e : Event) (votes : List Vote)
    (groupWeights : Option (JsMap Rat)) : Results :=
  { projects := assignProjectRanks 0 ((jsValues (projectsFinal e votes groupWeights)).mergeSort projLE),
    groups := assignGroupRanks 0 ((jsValues (groupsFinal e votes groupWeights)).mergeSort groupLE) }

/-- `totalVotes` as reported by both results endpoints: `votes.length`,
over all fetched votes, with no membership filtering. -/
def totalVotes (votes : List Vote) : Nat :=
  votes.length

/-- `totalVoters` as reported by both results endpoints:
`new Set(votes.map(v => v.voterSessionId)).size`. -/
def totalVoters (votes : List Vote) : Nat :=
  ((votes.map (fun v => v.voterSessionId)).dedup).length

/-- `new Date(date + "T" + time).getTime()`, with the platform's
string-to-timestamp parser abstracted as `parse`. -/
def combineDateTime (parse : String → Int) (d t : String) : Int :=
  parse (d ++ "T" ++ t)

/-- The `votingStatus` virtual of the Event schema. -/
def votingStatus (parse : String → Int) (e : Event) (now : Int) : String :=
  let start := combineDateTime parse e.date e.startTime
  let close := combineDateTime parse e.date e.closeTime
  match e.isVotingOpen with
  | some true => "open"
  | some false => "closed"
  | none =>
    if now < start then "upcoming"
    else if start ≤ now ∧ now ≤ close then "open"
    else "closed"

/-- The inline window-and-override check of `submitVote`
(lines computing `votingOpen`). -/
def votingOpenNow (parse : String → Int) (e : Event) (now : Int) : Bool :=
  match e.isVotingOpen with
  | some true => true
  | some false => false
  | none =>
    decide (combineDateTime parse e.date e.startTime ≤ now
      ∧ now ≤ combineDateTime parse e.date e.closeTime)

/-- One entry of the submitted `votes` array.  `scores = none` models a
missing / non-object `scores` field (`!scores || typeof scores !== 'object'`);
`some []` is an empty scores object, which that check lets through. -/
structure VoteEntry where
  projectId : String
  groupId : String
  scores : Option (List (String × Rat))
deriving Repr, DecidableEq, Inhabited

/-- The distinct rejection branches of `submitVote`, one constructor per
`return res.status(...)` site in the per-entry loop and its preamble. -/
inductive IntakeError where
  | eventMissing
  | votingClosed
  | emptyVotes
  | projectMissing (projectId : String)
  | groupMissing (groupId : String)
  | badGroupPassword
  | scoresRequired
  | criterionMissing (name : String)
  | scoreOutOfRange (name : String) (maxScore : Rat)
  | alreadyVoted (projectName : String)
deriving Repr, DecidableEq

/-- Whether an intake error is the `Vote already submitted` rejection. -/
def IntakeError.isDup : IntakeError → Bool
  | .alreadyVoted _ => true
  | _ => false

/-- `event.projects.id(projectId)`: first embedded project with that id. -/
def findProject (e : Event) (pid : String) : Option Project :=
  e.projects.find? (fun p => p.id = pid)

/-- `event.groups.id(groupId)`: first embedded group with that id. -/
def findGroup (e : Event) (gid : String) : Option Group :=
  e.groups.find? (fun g => g.id = gid)

/-- `if (group.password && group.password !== groupPassword)`: a missing or
empty stored password is falsy and disables the check. -/
def passwordOk (g : Group) (supplied : Option String) : Bool :=
  match g.password with
  | none => true
  | some p => if p = "" then true else decide (supplied = some p)

/-- The `for (const [criterionName, score] of Object.entries(scores))` loop:
first unknown criterion name or out-of-range value wins. -/
def validateScores (criteria : List Criterion) : List (String × Rat) → Option IntakeError
  | [] => none
  | ks :: rest =>
    match criteria.find? (fun c => c.name = ks.1) with
    | none => some (.criterionMissing ks.1)
    | some c =>
      if ks.2 < 1 ∨ c.maxScore < ks.2 then some (.scoreOutOfRange ks.1 c.maxScore)
      else validateScores criteria rest

/-- One iteration of the `for (const voteData of votes)` loop of `submitVote`:
either the new `Vote` document to save, or the rejection returned.  `store` is
the set of persisted votes visible to `Vote.findOne`. -/
def stepEntry (e : Event) (eventId : String) (groupPassword : Option String)
    (sessionId : String) (store : List Vote) (entry : VoteEntry) : Except IntakeError Vote :=
  match findProject e entry.projectId with
  | none => .error (.projectMissing entry.projectId)
  | some project =>
    match findGroup e entry.groupId with
    | none => .error (.groupMissing entry.groupId)
    | some group =>
      if passwordOk group groupPassword = false then .error .badGroupPassword
      else
        match entry.scores with
        | none => .error .scoresRequired
        | some scores =>
          match validateScores e.criteria scores with
          | some err => .error err
          | none =>
            if store.any (fun v =>
                v.event = eventId ∧ v.voterSessionId = sessionId ∧ v.project = entry.projectId)
            then .error (.alreadyVoted project.name)
            else .ok { event := eventId, project := entry.projectId,
                       group := entry.groupId, scores := scores,
                       voterSessionId := sessionId }

/-- The whole per-entry loop: returns the votes saved (in order) and the
first rejection, if any.  Each saved vote becomes visible to the duplicate
lookup of the following entries. -/
def processEntries (e : Event) (eventId : String) (groupPassword : Option String)
    (sessionId : String) : List Vote → List VoteEntry → List Vote × Option IntakeError
  | _, [] => ([], none)
  | store, entry :: rest =>
    match stepEntry e eventId groupPassword sessionId store entry with
    | .error err => ([], some err)
    | .ok v =>
      let r := processEntries e eventId groupPassword sessionId (store ++ [v]) rest
      (v :: r.1, r.2)

/-- The externally visible outcome of `submitVote`. -/
inductive SubmitOutcome where
  | accepted (sessionId : String) (votesCount : Nat)
  | rejected (err : IntakeError)
deriving Repr, DecidableEq

/-- `submitVote` of votingController.js, after the express-validator layer:
event lookup, activity check, window check, batch shape check, then the
per-entry loop.  Returns the response and the store as left behind (votes
saved before a mid-batch failure stay saved). -/
def submitVote (eventDoc : Option Event) (eventId : String) (entries : List VoteEntry)
    (groupPassword : Option String) (sessionId : String) (now : Int)
    (parse : String → Int) (store : List Vote) : SubmitOutcome × List Vote :=
  match eventDoc with
  | none => (.rejected .eventMissing, store)
  | some e =>
    if e.isActive = false then (.rejected .eventMissing, store)
    else if votingOpenNow parse e now = false then (.rejected .votingClosed, store)
    else if entries.isEmpty then (.rejected .emptyVotes, store)
    else
      let r := processEntries e eventId groupPassword sessionId store entries
      match r.2 with
      | some err => (.rejected err, store ++ r.1)
      | none => (.accepted sessionId r.1.length, store ++ r.1)

/-- Modelled from the spec (§4.3): the per-group average score of a project,
"average of that group's vote totals on this project"; `0` with no votes. -/
def specGroupAverage (votes : List Vote) (pid gid : String) : Rat :=
  if (votes.filter (fun v => v.project = pid ∧ v.group = gid)).length = 0 then 0
  else ((votes.filter (fun v => v.project = pid ∧ v.group = gid)).map voteTotal).sum
    / (((votes.filter (fun v => v.project = pid ∧ v.group = gid)).length : Nat) : Rat)

/-- Clear a project record's rank (for stating sort stability). -/
def clearRankP (r : ProjectResult) : ProjectResult := { r with rank := 0 }

/-- Clear a group record's rank (for stating sort stability). -/
def clearRankG (r : GroupResult) : GroupResult := { r with rank := 0 }

/-- Concrete group "J" (weight 70) used by witnesses. -/
def wGroupJ : Group := ⟨"1", "J", 70, none⟩

/-- Concrete group "P" (weight 30) used by witnesses. -/
def wGroupP : Group := ⟨"2", "P", 30, none⟩

/-- A second group that shares the *name* "J" with `wGroupJ` (weight 30). -/
def wGroupJ2 : Group := ⟨"2", "J", 30, none⟩

/-- Concrete project used by witnesses. -/
def wProject : Project := ⟨"p", "A", "", []⟩

/-- Concrete criterion (maxScore 10) used by witnesses. -/
def wCriterion : Criterion := ⟨"c", 10⟩

/-- Concrete event (voting forced open) used by witnesses. -/
def wEvent : Event :=
  ⟨"e", "d", "s", "t", true, some true, [wGroupJ, wGroupP], [wProject], [wCriterion]⟩

/-- `wEvent` with the override cleared (status derived from the window). -/
def wEventAuto : Event := { wEvent with isVotingOpen := none }

/-- `wEvent` with two groups sharing the name "J". -/
def wEventDup : Event := { wEvent with groups := [wGroupJ, wGroupJ2] }

/-- A vote of total 10 cast in group "1" on project "p". -/
def wVoteJ : Vote := ⟨"e", "p", "1", [("c", 10)], "u"⟩

/-- A vote of total 4 cast in group "2" on project "p". -/
def wVoteP : Vote := ⟨"e", "p", "2", [("c", 4)], "v"⟩

/-- A well-formed batch entry (score 5 on criterion "c"). -/
def wEntryOk : VoteEntry := ⟨"p", "1", some [("c", 5)]⟩

/-- A batch entry carrying score 11 against maxScore 10. -/
def wEntry11 : VoteEntry := ⟨"p", "1", some [("c", 11)]⟩

/-- A batch entry whose scores object is empty. -/
def wEntryEmpty : VoteEntry := ⟨"p", "1", some []⟩

/-- A concrete date-time parser for witnesses (string length as timestamp). -/
def wParse : String → Int := fun s => (s.length : Int)

/-- The `projectGroupScores` cell predicted for a project/group pair: total
and count over the votes carrying exactly those ids. -/
def pgOf (votes : List Vote) (pid gid : String) : PGStat :=
  ⟨((votes.filter (fun v => v.project = pid ∧ v.group = gid)).map voteTotal).sum,
   (votes.filter (fun v => v.project = pid ∧ v.group = gid)).length⟩

/-- The per-group average the averages pass derives from a
`projectGroupScores` cell (0 when the cell counts no votes). -/
def pgAvg (votes : List Vote) (pid gid : String) : Rat :=
  if (pgOf votes pid gid).count > 0
  then (pgOf votes pid gid).total / ((pgOf votes pid gid).count : Rat)
  else 0

-- ## Lemmas

theorem jsGet_nil {α : Type} (k : String) : jsGet ([] : JsMap α) k = none := rfl

theorem jsGet_cons {α : Type} (p : String × α) (m : JsMap α) (k : String) :
    jsGet (p :: m) k = if p.1 = k then some p.2 else jsGet m k := by
  by_cases h : p.1 = k
  · simp [jsGet, List.find?_cons_of_pos, h]
  · simp [jsGet, List.find?_cons_of_neg, h]

theorem mem_jsKeys_iff_any {α : Type} (m : JsMap α) (k : String) :
    m.any (fun p => p.1 = k) = true ↔ k ∈ jsKeys m := by
  rw [List.any_eq_true]
  constructor
  · rintro ⟨p, hp, he⟩
    simp only [decide_eq_true_eq] at he
    exact he ▸ List.mem_map_of_mem (fun p => p.1) hp
  · intro h
    rcases List.mem_map.mp h with ⟨p, hp, he⟩
    exact ⟨p, hp, by simp [he]⟩

theorem jsGet_eq_none_iff {α : Type} (m : JsMap α) (k : String) :
    jsGet m k = none ↔ k ∉ jsKeys m := by
  induction m with
  | nil => simp [jsGet, jsKeys]
  | cons p m ih =>
    rw [jsGet_cons]
    by_cases h : p.1 = k
    · simp [jsKeys, h]
    · simp [jsKeys, h, Ne.symm h, ih]

theorem jsGet_isSome_iff {α : Type} (m : JsMap α) (k : String) :
    (jsGet m k).isSome = true ↔ k ∈ jsKeys m := by
  rw [Option.isSome_iff_ne_none]
  constructor
  · intro h
    by_contra hk
    exact h ((jsGet_eq_none_iff m k).mpr hk)
  · intro h hn
    exact ((jsGet_eq_none_iff m k).mp hn) h

theorem jsGet_mapSet_self {α : Type} (m : JsMap α) (k : String) (v : α) :
    jsGet (m.map (fun p => if p.1 = k then (k, v) else p)) k
      = if k ∈ jsKeys m then some v else none := by
  induction m with
  | nil => simp [jsGet, jsKeys]
  | cons p m ih =>
    by_cases h : p.1 = k
    · simp [List.map_cons, if_pos h, jsGet_cons, jsKeys, h]
    · rw [List.map_cons, if_neg h, jsGet_cons, if_neg h, ih]
      have hiff : (k ∈ jsKeys (p :: m)) ↔ k ∈ jsKeys m := by
        simp [jsKeys, Ne.symm h]
      rw [if_congr hiff rfl rfl]

theorem jsGet_mapSet_ne {α : Type} (m : JsMap α) (k : String) (v : α) (q : String)
    (h : q ≠ k) :
    jsGet (m.map (fun p => if p.1 = k then (k, v) else p)) q = jsGet m q := by
  induction m with
  | nil => simp
  | cons p m ih =>
    by_cases hpk : p.1 = k
    · have hpq : p.1 ≠ q := by rw [hpk]; exact Ne.symm h
      rw [List.map_cons, if_pos hpk, jsGet_cons, jsGet_cons, if_neg hpq]
      simp only [Ne.symm h, if_false]
      exact ih
    · rw [List.map_cons, if_neg hpk, jsGet_cons, jsGet_cons]
      by_cases hpq : p.1 = q
      · simp [hpq]
      · rw [if_neg hpq, if_neg hpq]; exact ih

theorem jsKeys_set {α : Type} (m : JsMap α) (k : String) (v : α) :
    jsKeys (jsSet m k v) = if k ∈ jsKeys m then jsKeys m else jsKeys m ++ [k] := by
  by_cases h : k ∈ jsKeys m
  · rw [if_pos h]
    unfold jsSet
    rw [if_pos ((mem_jsKeys_iff_any m k).mpr h)]
    unfold jsKeys
    rw [List.map_map]
    apply List.map_congr_left
    intro p hp
    by_cases hpk : p.1 = k <;> simp [hpk]
  · rw [if_neg h]
    unfold jsSet
    rw [if_neg (by intro hc; exact h ((mem_jsKeys_iff_any m k).mp hc))]
    simp [jsKeys]

theorem jsGet_set_self {α : Type} (m : JsMap α) (k : String) (v : α) :
    jsGet (jsSet m k v) k = some v := by
  unfold jsSet
  by_cases h : k ∈ jsKeys m
  · rw [if_pos ((mem_jsKeys_iff_any m k).mpr h), jsGet_mapSet_self, if_pos h]
  · rw [if_neg (by intro hc; exact h ((mem_jsKeys_iff_any m k).mp hc))]
    have hnone : jsGet m k = none := (jsGet_eq_none_iff m k).mpr h
    simp only [jsGet] at hnone ⊢
    have hfind : m.find? (fun p => decide (p.1 = k)) = none := by
      rcases hfe : m.find? (fun p => decide (p.1 = k)) with _ | p
      · exact hfe
      · rw [hfe] at hnone; simp at hnone
    have hone : List.find? (fun p => decide (p.1 = k)) [(k, v)] = some (k, v) :=
      List.find?_cons_of_pos _ (by simp)
    rw [List.find?_append, hfind, hone]
    simp

theorem jsGet_set_ne {α : Type} (m : JsMap α) (k : String) (v : α) (q : String)
    (h : q ≠ k) : jsGet (jsSet m k v) q = jsGet m q := by
  unfold jsSet
  by_cases hm : m.any (fun p => p.1 = k)
  · rw [if_pos hm]; exact jsGet_mapSet_ne m k v q h
  · rw [if_neg hm]
    simp only [jsGet]
    rw [List.find?_append]
    rcases hfind : m.find? (fun p => decide (p.1 = q)) with _ | p
    · simp [List.find?, Ne.symm h]
    · simp [hfind, Ne.symm h]

theorem jsKeys_modify {α : Type} (m : JsMap α) (k : String) (f : α → α) :
    jsKeys (jsModify m k f) = jsKeys m := by
  unfold jsKeys jsModify
  rw [List.map_map]
  apply List.map_congr_left
  intro p hp
  by_cases hpk : p.1 = k <;> simp [hpk]

theorem jsGet_modify_self {α : Type} (m : JsMap α) (k : String) (f : α → α) :
    jsGet (jsModify m k f) k = (jsGet m k).map f := by
  induction m with
  | nil => simp [jsModify, jsGet_nil]
  | cons p m ih =>
    by_cases h : p.1 = k
    · simp [jsModify, List.map_cons, jsGet_cons, h]
    · rw [jsModify, List.map_cons, if_neg h, jsGet_cons, jsGet_cons, if_neg h, if_neg h]
      exact ih

theorem jsGet_modify_ne {α : Type} (m : JsMap α) (k : String) (f : α → α) (q : String)
    (h : q ≠ k) : jsGet (jsModify m k f) q = jsGet m q := by
  induction m with
  | nil => simp [jsModify]
  | cons p m ih =>
    by_cases hpk : p.1 = k
    · have hpq : p.1 ≠ q := by rw [hpk]; exact Ne.symm h
      rw [jsModify, List.map_cons, if_pos hpk, jsGet_cons, jsGet_cons, if_neg hpq, if_neg hpq]
      exact ih
    · rw [jsModify, List.map_cons, if_neg hpk, jsGet_cons, jsGet_cons]
      by_cases hpq : p.1 = q
      · simp [hpq]
      · rw [if_neg hpq, if_neg hpq]; exact ih

theorem mem_jsKeys_set {α : Type} (m : JsMap α) (k : String) (v : α) (q : String) :
    q ∈ jsKeys (jsSet m k v) ↔ q ∈ jsKeys m ∨ q = k := by
  rw [jsKeys_set]
  by_cases h : k ∈ jsKeys m
  · rw [if_pos h]
    constructor
    · exact Or.inl
    · rintro (hq | rfl)
      · exact hq
      · exact h
  · rw [if_neg h]
    simp

theorem nodup_jsKeys_set {α : Type} (m : JsMap α) (k : String) (v : α)
    (h : (jsKeys m).Nodup) : (jsKeys (jsSet m k v)).Nodup := by
  rw [jsKeys_set]
  by_cases hk : k ∈ jsKeys m
  · rwa [if_pos hk]
  · rw [if_neg hk]
    exact List.Nodup.append h (List.nodup_singleton k) (by simpa using hk)

theorem nodup_jsKeys_foldlSet {α β : Type} (key : α → String) (val : α → β)
    (l : List α) (m0 : JsMap β) (h : (jsKeys m0).Nodup) :
    (jsKeys (l.foldl (fun m x => jsSet m (key x) (val x)) m0)).Nodup := by
  induction l generalizing m0 with
  | nil => exact h
  | cons x l ih => exact ih _ (nodup_jsKeys_set _ _ _ h)

theorem nodup_jsKeys_buildMap {α β : Type} (key : α → String) (val : α → β) (l : List α) :
    (jsKeys (buildMap key val l)).Nodup :=
  nodup_jsKeys_foldlSet key val l [] (by simp [jsKeys])

theorem jsGet_foldlSet_not_mem {α β : Type} (key : α → String) (val : α → β)
    (l : List α) (m0 : JsMap β) (q : String) (h : q ∉ l.map key) :
    jsGet (l.foldl (fun m x => jsSet m (key x) (val x)) m0) q = jsGet m0 q := by
  induction l generalizing m0 with
  | nil => rfl
  | cons x l ih =>
    have hq : q ≠ key x := by
      intro hc
      exact h (by simp [hc])
    rw [List.foldl_cons, ih _ (by intro hc; exact h (by simp [hc])), jsGet_set_ne _ _ _ _ hq]

theorem mem_jsKeys_foldlSet {α β : Type} (key : α → String) (val : α → β)
    (l : List α) (m0 : JsMap β) (q : String) :
    q ∈ jsKeys (l.foldl (fun m x => jsSet m (key x) (val x)) m0)
      ↔ q ∈ jsKeys m0 ∨ q ∈ l.map key := by
  induction l generalizing m0 with
  | nil => simp
  | cons x l ih =>
    rw [List.foldl_cons, ih]
    rw [mem_jsKeys_set]
    simp only [List.map_cons, List.mem_cons]
    tauto

theorem mem_jsKeys_buildMap {α β : Type} (key : α → String) (val : α → β)
    (l : List α) (q : String) :
    q ∈ jsKeys (buildMap key val l) ↔ q ∈ l.map key := by
  rw [buildMap, mem_jsKeys_foldlSet]
  simp [jsKeys]

theorem jsKeys_foldlSet_nodup {α β : Type} (key : α → String) (val : α → β)
    (l : List α) (m0 : JsMap β) (h : ∀ x ∈ l, key x ∉ jsKeys m0)
    (hl : (l.map key).Nodup) :
    jsKeys (l.foldl (fun m x => jsSet m (key x) (val x)) m0) = jsKeys m0 ++ l.map key := by
  induction l generalizing m0 with
  | nil => simp
  | cons x l ih =>
    have h1 : key x ∉ jsKeys m0 := h x (List.mem_cons_self x l)
    rw [List.map_cons, List.nodup_cons] at hl
    rw [List.foldl_cons, ih (jsSet m0 (key x) (val x)) ?_ hl.2]
    · rw [jsKeys_set, if_neg h1]
      simp
    · intro y hy
      rw [mem_jsKeys_set]
      rintro (hc | hc)
      · exact h y (List.mem_cons_of_mem x hy) hc
      · exact hl.1 (hc ▸ List.mem_map_of_mem key hy)

theorem jsKeys_buildMap_nodup {α β : Type} (key : α → String) (val : α → β)
    (l : List α) (hl : (l.map key).Nodup) :
    jsKeys (buildMap key val l) = l.map key := by
  rw [buildMap, jsKeys_foldlSet_nodup key val l [] (by simp [jsKeys]) hl]
  simp [jsKeys]

theorem jsGet_foldlSet_nodup {α β : Type} (key : α → String) (val : α → β)
    (l : List α) (m0 : JsMap β) (x : α) (hx : x ∈ l) (hl : (l.map key).Nodup) :
    jsGet (l.foldl (fun m y => jsSet m (key y) (val y)) m0) (key x) = some (val x) := by
  induction l generalizing m0 with
  | nil => cases hx
  | cons y l ih =>
    rw [List.map_cons, List.nodup_cons] at hl
    rcases List.mem_cons.mp hx with rfl | hx'
    · rw [List.foldl_cons,
        jsGet_foldlSet_not_mem key val l _ (key x) hl.1, jsGet_set_self]
    · rw [List.foldl_cons]
      exact ih _ hx' hl.2

theorem jsGet_buildMap_nodup {α β : Type} (key : α → String) (val : α → β)
    (l : List α) (x : α) (hx : x ∈ l) (hl : (l.map key).Nodup) :
    jsGet (buildMap key val l) (key x) = some (val x) :=
  jsGet_foldlSet_nodup key val l [] x hx hl

theorem jsGet_buildMap_not_mem {α β : Type} (key : α → String) (val : α → β)
    (l : List α) (q : String) (h : q ∉ l.map key) :
    jsGet (buildMap key val l) q = none :=
  jsGet_foldlSet_not_mem key val l [] q h

theorem jsGet_of_mem_nodup {α : Type} (m : JsMap α) (k : String) (v : α)
    (hm : (k, v) ∈ m) (hn : (jsKeys m).Nodup) : jsGet m k = some v := by
  induction m with
  | nil => cases hm
  | cons p m ih =>
    rw [jsGet_cons]
    rcases List.mem_cons.mp hm with rfl | hm'
    · simp
    · have hn2 : (p.1 :: jsKeys m).Nodup := hn
      have hk : p.1 ≠ k := by
        intro hc
        have hmem : k ∈ jsKeys m := by
          simpa [jsKeys] using List.mem_map_of_mem (fun q => q.1) hm'
        exact (List.nodup_cons.mp hn2).1 (hc ▸ hmem)
      rw [if_neg hk]
      exact ih hm' (List.nodup_cons.mp hn2).2

theorem mem_jsValues {α : Type} (m : JsMap α) (v : α) :
    v ∈ jsValues m ↔ ∃ k, (k, v) ∈ m := by
  simp only [jsValues, List.mem_map]
  constructor
  · rintro ⟨p, hp, rfl⟩
    exact ⟨p.1, by simpa using hp⟩
  · rintro ⟨k, hk⟩
    exact ⟨(k, v), hk, rfl⟩

theorem jsGet_foldlModify_not_mem {α : Type} (ks : List String) (F : String → α → α)
    (m0 : JsMap α) (q : String) (h : q ∉ ks) :
    jsGet (ks.foldl (fun m k => jsModify m k (F k)) m0) q = jsGet m0 q := by
  induction ks generalizing m0 with
  | nil => rfl
  | cons k ks ih =>
    rw [List.foldl_cons, ih _ (by intro hc; exact h (List.mem_cons_of_mem k hc)),
      jsGet_modify_ne _ _ _ _ (by intro hc; exact h (hc ▸ List.mem_cons_self k ks))]

theorem jsGet_foldlModify_nodup {α : Type} (ks : List String) (F : String → α → α)
    (m0 : JsMap α) (q : String) (hq : q ∈ ks) (hn : ks.Nodup) :
    jsGet (ks.foldl (fun m k => jsModify m k (F k)) m0) q = (jsGet m0 q).map (F q) := by
  induction ks generalizing m0 with
  | nil => cases hq
  | cons k ks ih =>
    rcases List.mem_cons.mp hq with rfl | hq'
    · rw [List.foldl_cons, jsGet_foldlModify_not_mem ks F _ q (List.nodup_cons.mp hn).1,
        jsGet_modify_self]
    · have hqk : q ≠ k := by
        intro hc
        exact (List.nodup_cons.mp hn).1 (hc ▸ hq')
      rw [List.foldl_cons, ih _ hq' (List.nodup_cons.mp hn).2,
        jsGet_modify_ne _ _ _ _ hqk]

theorem jsKeys_foldlModify {α : Type} (ks : List String) (F : String → α → α)
    (m0 : JsMap α) :
    jsKeys (ks.foldl (fun m k => jsModify m k (F k)) m0) = jsKeys m0 := by
  induction ks generalizing m0 with
  | nil => rfl
  | cons k ks ih => rw [List.foldl_cons, ih, jsKeys_modify]

theorem foldl_pair_sum {α : Type} (f g : α → Rat) (l : List α) (a b : Rat) :
    l.foldl (fun acc x => (acc.1 + f x, acc.2 + g x)) (a, b)
      = (a + (l.map f).sum, b + (l.map g).sum) := by
  induction l generalizing a b with
  | nil => simp
  | cons x l ih =>
    rw [List.foldl_cons, ih]
    simp [add_assoc]

theorem length_assignProjectRanks (n : Nat) (l : List ProjectResult) :
    (assignProjectRanks n l).length = l.length := by
  induction l generalizing n with
  | nil => rfl
  | cons p l ih => simp [assignProjectRanks, ih]

theorem length_assignGroupRanks (n : Nat) (l : List GroupResult) :
    (assignGroupRanks n l).length = l.length := by
  induction l generalizing n with
  | nil => rfl
  | cons p l ih => simp [assignGroupRanks, ih]

theorem getElem_assignProjectRanks (n : Nat) (l : List ProjectResult) (i : Nat)
    (h : i < (assignProjectRanks n l).length) (h2 : i < l.length) :
    (assignProjectRanks n l)[i] = { l[i] with rank := n + i + 1 } := by
  induction l generalizing n i with
  | nil => cases h2
  | cons p l ih =>
    cases i with
    | zero => rfl
    | succ j =>
      have := ih (n + 1) j (by simpa [assignProjectRanks, length_assignProjectRanks]
        using Nat.lt_of_succ_lt_succ (by simpa [length_assignProjectRanks] using h))
        (Nat.lt_of_succ_lt_succ h2)
      simpa [assignProjectRanks, Nat.add_assoc, Nat.add_comm 1 j] using this

theorem getElem_assignGroupRanks (n : Nat) (l : List GroupResult) (i : Nat)
    (h : i < (assignGroupRanks n l).length) (h2 : i < l.length) :
    (assignGroupRanks n l)[i] = { l[i] with rank := n + i + 1 } := by
  induction l generalizing n i with
  | nil => cases h2
  | cons p l ih =>
    cases i with
    | zero => rfl
    | succ j =>
      have := ih (n + 1) j (by simpa [assignGroupRanks, length_assignGroupRanks]
        using Nat.lt_of_succ_lt_succ (by simpa [length_assignGroupRanks] using h))
        (Nat.lt_of_succ_lt_succ h2)
      simpa [assignGroupRanks, Nat.add_assoc, Nat.add_comm 1 j] using this

theorem mem_assignProjectRanks (n : Nat) (l : List ProjectResult) (r : ProjectResult)
    (h : r ∈ assignProjectRanks n l) : ∃ r0 ∈ l, ∃ m, r = { r0 with rank := m } := by
  induction l generalizing n with
  | nil => cases h
  | cons p l ih =>
    rcases List.mem_cons.mp h with rfl | h'
    · exact ⟨p, List.mem_cons_self p l, n + 1, rfl⟩
    · rcases ih (n + 1) h' with ⟨r0, hr0, m, hm⟩
      exact ⟨r0, List.mem_cons_of_mem p hr0, m, hm⟩

theorem mem_assignGroupRanks (n : Nat) (l : List GroupResult) (r : GroupResult)
    (h : r ∈ assignGroupRanks n l) : ∃ r0 ∈ l, ∃ m, r = { r0 with rank := m } := by
  induction l generalizing n with
  | nil => cases h
  | cons p l ih =>
    rcases List.mem_cons.mp h with rfl | h'
    · exact ⟨p, List.mem_cons_self p l, n + 1, rfl⟩
    · rcases ih (n + 1) h' with ⟨r0, hr0, m, hm⟩
      exact ⟨r0, List.mem_cons_of_mem p hr0, m, hm⟩

theorem map_clearRankP_assignProjectRanks (n : Nat) (l : List ProjectResult) :
    (assignProjectRanks n l).map clearRankP = l.map clearRankP := by
  induction l generalizing n with
  | nil => rfl
  | cons p l ih => simp [assignProjectRanks, clearRankP, ih]

theorem map_clearRankG_assignGroupRanks (n : Nat) (l : List GroupResult) :
    (assignGroupRanks n l).map clearRankG = l.map clearRankG := by
  induction l generalizing n with
  | nil => rfl
  | cons p l ih => simp [assignGroupRanks, clearRankG, ih]

/-- C2: the derived voting status is "open"/"closed" whenever the override is
explicitly set, regardless of the window; with no override it is "upcoming"
before the start, "open" within the window, "closed" after the close (the
start and close being the event's date combined with its two times). -/
theorem votingStatus_window_rule (parse : String → Int) (e : Event) (now : Int) :
    (e.isVotingOpen = some true → votingStatus parse e now = "open")
    ∧ (e.isVotingOpen = some false → votingStatus parse e now = "closed")
    ∧ (e.isVotingOpen = none →
        combineDateTime parse e.date e.startTime ≤ combineDateTime parse e.date e.closeTime →
        ((now < combineDateTime parse e.date e.startTime →
            votingStatus parse e now = "upcoming")
          ∧ (combineDateTime parse e.date e.startTime ≤ now →
              now ≤ combineDateTime parse e.date e.closeTime →
              votingStatus parse e now = "open")
          ∧ (combineDateTime parse e.date e.closeTime < now →
              votingStatus parse e now = "closed"))) := by
  refine ⟨fun h => by simp [votingStatus, h], fun h => by simp [votingStatus, h], ?_⟩
  intro h hse
  refine ⟨fun hlt => by simp [votingStatus, h, hlt], ?_, ?_⟩
  · intro h1 h2
    simp only [votingStatus, h]
    rw [if_neg (by omega), if_pos ⟨h1, h2⟩]
  · intro hgt
    simp only [votingStatus, h]
    rw [if_neg (by omega), if_neg (by omega)]

/-- Witness for C2 at concrete inputs: override forces "open"; with no
override and `now` inside the window the status is "open". -/
theorem votingStatus_window_rule_witness :
    votingStatus wParse wEvent 0 = "open" ∧ votingStatus wParse wEventAuto 3 = "open" := by
  refine ⟨(votingStatus_window_rule wParse wEvent 0).1 (by decide), ?_⟩
  exact ((votingStatus_window_rule wParse wEventAuto 3).2.2 (by decide)
    (by decide)).2.1 (by decide) (by decide)

theorem validateScores_not_dup (cs : List Criterion) (l : List (String × Rat))
    (err : IntakeError) (h : validateScores cs l = some err) : err.isDup = false := by
  induction l with
  | nil => simp [validateScores] at h
  | cons ks rest ih =>
    unfold validateScores at h
    rcases hf : cs.find? (fun c => c.name = ks.1) with _ | c
    · simp only [hf] at h
      injection h with h2
      rw [← h2]
      rfl
    · simp only [hf] at h
      by_cases hr : ks.2 < 1 ∨ c.maxScore < ks.2
      · rw [if_pos hr] at h
        injection h with h2
        rw [← h2]
        rfl
      · rw [if_neg hr] at h
        exact ih h

theorem stepEntry_dup (e : Event) (eid : String) (gp : Option String) (sid : String)
    (store : List Vote) (entry : VoteEntry) (pn : String)
    (h : stepEntry e eid gp sid store entry = .error (.alreadyVoted pn)) :
    store.any (fun v =>
      v.event = eid ∧ v.voterSessionId = sid ∧ v.project = entry.projectId) = true := by
  unfold stepEntry at h
  rcases hfp : findProject e entry.projectId with _ | p
  · simp [hfp] at h
  simp only [hfp] at h
  rcases hfg : findGroup e entry.groupId with _ | g
  · simp [hfg] at h
  simp only [hfg] at h
  by_cases hpw : passwordOk g gp = false
  · rw [if_pos hpw] at h
    simp at h
  rw [if_neg hpw] at h
  rcases hs : entry.scores with _ | scores
  · simp [hs] at h
  simp only [hs] at h
  rcases hv : validateScores e.criteria scores with _ | err
  · simp only [hv] at h
    by_cases hany : store.any (fun v =>
        v.event = eid ∧ v.voterSessionId = sid ∧ v.project = entry.projectId) = true
    · exact hany
    · simp only [Bool.not_eq_true] at hany
      rw [if_neg (by rw [hany]; exact Bool.false_ne_true)] at h
      simp at h
  · simp only [hv] at h
    injection h with h2
    have := validateScores_not_dup e.criteria scores err hv
    rw [h2] at this
    simp [IntakeError.isDup] at this

theorem stepEntry_ok_fields (e : Event) (eid : String) (gp : Option String) (sid : String)
    (store : List Vote) (entry : VoteEntry) (v : Vote)
    (h : stepEntry e eid gp sid store entry = .ok v) :
    v.event = eid ∧ v.voterSessionId = sid ∧ v.project = entry.projectId := by
  unfold stepEntry at h
  rcases hfp : findProject e entry.projectId with _ | p
  · simp [hfp] at h
  simp only [hfp] at h
  rcases hfg : findGroup e entry.groupId with _ | g
  · simp [hfg] at h
  simp only [hfg] at h
  by_cases hpw : passwordOk g gp = false
  · rw [if_pos hpw] at h
    simp at h
  rw [if_neg hpw] at h
  rcases hs : entry.scores with _ | scores
  · simp [hs] at h
  simp only [hs] at h
  rcases hv : validateScores e.criteria scores with _ | err
  · simp only [hv] at h
    by_cases hany : store.any (fun v =>
        v.event = eid ∧ v.voterSessionId = sid ∧ v.project = entry.projectId) = true
    · rw [if_pos hany] at h
      simp at h
    · simp only [Bool.not_eq_true] at hany
      rw [if_neg (by rw [hany]; exact Bool.false_ne_true)] at h
      injection h with h2
      rw [← h2]
      exact ⟨rfl, rfl, rfl⟩
  · simp only [hv] at h
    simp at h

theorem processEntries_nil (e : Event) (eid : String) (gp : Option String)
    (sid : String) (store : List Vote) :
    processEntries e eid gp sid store [] = ([], none) := rfl

theorem processEntries_cons (e : Event) (eid : String) (gp : Option String)
    (sid : String) (store : List Vote) (entry : VoteEntry) (rest : List VoteEntry) :
    processEntries e eid gp sid store (entry :: rest)
      = match stepEntry e eid gp sid store entry with
        | .error err => ([], some err)
        | .ok v =>
          let r := processEntries e eid gp sid (store ++ [v]) rest
          (v :: r.1, r.2) := rfl

theorem processEntries_append_ok (e : Event) (eid : String) (gp : Option String)
    (sid : String) (store : List Vote) (es1 es2 : List VoteEntry)
    (h1 : (processEntries e eid gp sid store es1).2 = none) :
    processEntries e eid gp sid store (es1 ++ es2)
      = ((processEntries e eid gp sid store es1).1
          ++ (processEntries e eid gp sid
                (store ++ (processEntries e eid gp sid store es1).1) es2).1,
         (processEntries e eid gp sid
            (store ++ (processEntries e eid gp sid store es1).1) es2).2) := by
  induction es1 generalizing store with
  | nil => simp [processEntries_nil]
  | cons entry rest ih =>
    rcases hse : stepEntry e eid gp sid store entry with err | v
    · rw [processEntries_cons, hse] at h1
      simp at h1
    · rw [List.cons_append, processEntries_cons, hse, processEntries_cons, hse]
      have := ih (store ++ [v]) (by rw [processEntries_cons, hse] at h1; simpa using h1)
      simp only [this]
      simp [List.append_assoc]

/-- C4: if every entry before the i-th succeeds and the i-th entry fails
validation, `submitVote` returns that entry's error immediately: the entries
after it are never processed (the result does not depend on them), and the
votes persisted for the earlier entries stay in the store (no rollback). -/
theorem batch_abort_no_rollback (e : Event) (eid : String) (gp : Option String)
    (sid : String) (parse : String → Int) (now : Int) (store : List Vote)
    (es1 rest : List VoteEntry) (bad : VoteEntry) (err : IntakeError)
    (hact : e.isActive = true)
    (hopen : votingOpenNow parse e now = true)
    (h1 : (processEntries e eid gp sid store es1).2 = none)
    (herr : stepEntry e eid gp sid
      (store ++ (processEntries e eid gp sid store es1).1) bad = .error err) :
    submitVote (some e) eid (es1 ++ bad :: rest) gp sid now parse store
      = (.rejected err, store ++ (processEntries e eid gp sid store es1).1) := by
  have hproc : processEntries e eid gp sid store (es1 ++ bad :: rest)
      = ((processEntries e eid gp sid store es1).1, some err) := by
    rw [processEntries_append_ok e eid gp sid store es1 (bad :: rest) h1]
    rw [processEntries_cons, herr]
    simp
  unfold submitVote
  simp [hact, hopen, hproc]

/-- Witness for C4: a three-entry batch whose middle entry carries score 11;
the first entry's vote is persisted, the error is returned, the third entry
is never processed. -/
theorem batch_abort_no_rollback_witness :
    submitVote (some wEvent) "e" [wEntryOk, wEntry11, wEntryOk] none "u" 0 wParse []
      = (.rejected (.scoreOutOfRange "c" 10), [⟨"e", "p", "1", [("c", 5)], "u"⟩]) := by
  have h := batch_abort_no_rollback wEvent "e" none "u" wParse 0 []
    [wEntryOk] [wEntryOk] wEntry11 (.scoreOutOfRange "c" 10)
    (by decide) (by decide) (by decide) (by rfl)
  exact h.trans (by decide)

/-- C3 counterexample: a batch that repeats a project id hits the
`Vote already submitted` branch even though the session id is fresh and the
store holds no pre-existing vote — the check is not dead code. -/
theorem dup_check_reachable_cx :
    (submitVote (some wEvent) "e" [wEntryOk, wEntryOk] none "u" 0 wParse []).1
      = .rejected (.alreadyVoted "A")
    ∧ (processEntries wEvent "e" none "u" [] [wEntryOk, wEntryOk]).2
      = some (.alreadyVoted "A") := by
  constructor <;> decide

theorem processEntries_no_dup_aux (e : Event) (eid : String) (gp : Option String)
    (sid : String) (es : List VoteEntry) :
    ∀ store : List Vote,
      (∀ v ∈ store, v.voterSessionId = sid → v.project ∉ es.map (fun x => x.projectId)) →
      (es.map (fun x => x.projectId)).Nodup →
      ∀ err, (processEntries e eid gp sid store es).2 = some err → err.isDup = false := by
  induction es with
  | nil =>
    intro store _ _ err h
    simp [processEntries_nil] at h
  | cons entry rest ih =>
    intro store hstore hnodup err h
    rcases hse : stepEntry e eid gp sid store entry with err0 | v
    · rw [processEntries_cons, hse] at h
      simp only [Option.some.injEq] at h
      rw [← h]
      rcases herr0 : err0 with _ | _ | _ | _ | _ | _ | _ | _ | _ | pn
      case alreadyVoted =>
        exfalso
        have hany := stepEntry_dup e eid gp sid store entry pn (herr0 ▸ hse)
        rcases List.any_eq_true.mp hany with ⟨v, hv, hprop⟩
        simp only [decide_eq_true_eq] at hprop
        apply hstore v hv hprop.2.1
        rw [hprop.2.2]
        simp
      all_goals rfl
    · rw [processEntries_cons, hse] at h
      simp only at h
      rw [List.map_cons, List.nodup_cons] at hnodup
      refine ih (store ++ [v]) ?_ hnodup.2 err h
      intro w hw hwsid
      rcases List.mem_append.mp hw with hw' | hw'
      · intro hc
        apply hstore w hw' hwsid
        simp only [List.map_cons, List.mem_cons]
        exact Or.inr hc
      · have hfields := stepEntry_ok_fields e eid gp sid store entry v hse
        have : w = v := by simpa using hw'
        rw [this, hfields.2.2]
        exact hnodup.1

/-- C3 (amended): the duplicate-vote lookup never matches a pre-existing vote
(the session id is fresh), but it does match votes saved earlier in the same
batch; with pairwise-distinct project ids in the batch the
`Vote already submitted` rejection is unreachable. -/
theorem dup_check_only_within_batch (e : Event) (eid : String) (gp : Option String)
    (sid : String) (store : List Vote) (es : List VoteEntry)
    (hfresh : ∀ v ∈ store, v.voterSessionId ≠ sid)
    (hnodup : (es.map (fun x => x.projectId)).Nodup) :
    ∀ err, (processEntries e eid gp sid store es).2 = some err → err.isDup = false := by
  refine processEntries_no_dup_aux e eid gp sid es store ?_ hnodup
  intro v hv hsid
  exact absurd hsid (hfresh v hv)

/-- Witness for C3's amended claim: a fresh-session single-entry batch whose
failure (score 11) is not the duplicate rejection. -/
theorem dup_check_only_within_batch_witness :
    IntakeError.isDup (.scoreOutOfRange "c" 10) = false :=
  dup_check_only_within_batch wEvent "e" none "u" [] [wEntry11]
    (by intro v hv; cases hv) (by decide) (.scoreOutOfRange "c" 10) (by decide)

theorem validateScores_some_of_bad (cs : List Criterion) (scores : List (String × Rat))
    (hbad : (∃ ks ∈ scores, cs.find? (fun c => c.name = ks.1) = none)
      ∨ ∃ ks ∈ scores, ∃ c, cs.find? (fun c => c.name = ks.1) = some c
          ∧ (ks.2 < 1 ∨ c.maxScore < ks.2)) :
    ∃ err, validateScores cs scores = some err
      ∧ ((∃ k, err = .criterionMissing k ∧ cs.find? (fun c => c.name = k) = none
            ∧ k ∈ scores.map (fun ks => ks.1))
        ∨ ∃ k c s, err = .scoreOutOfRange k c.maxScore
            ∧ cs.find? (fun c => c.name = k) = some c
            ∧ (k, s) ∈ scores ∧ (s < 1 ∨ c.maxScore < s)) := by
  induction scores with
  | nil => simp at hbad
  | cons ks rest ih =>
    rcases hf : cs.find? (fun c => c.name = ks.1) with _ | c
    · refine ⟨.criterionMissing ks.1, ?_, Or.inl ⟨ks.1, rfl, hf, by simp⟩⟩
      unfold validateScores
      simp only [hf]
    · by_cases hr : ks.2 < 1 ∨ c.maxScore < ks.2
      · refine ⟨.scoreOutOfRange ks.1 c.maxScore, ?_,
          Or.inr ⟨ks.1, c, ks.2, rfl, hf, by simp, hr⟩⟩
        unfold validateScores
        simp only [hf, if_pos hr]
      · have hbad' : (∃ ks ∈ rest, cs.find? (fun c => c.name = ks.1) = none)
            ∨ ∃ ks ∈ rest, ∃ c, cs.find? (fun c => c.name = ks.1) = some c
                ∧ (ks.2 < 1 ∨ c.maxScore < ks.2) := by
          rcases hbad with ⟨ks', hks', hn⟩ | ⟨ks', hks', c', hc', hr'⟩
          · rcases List.mem_cons.mp hks' with rfl | hm
            · rw [hf] at hn
              cases hn
            · exact Or.inl ⟨ks', hm, hn⟩
          · rcases List.mem_cons.mp hks' with rfl | hm
            · rw [hf] at hc'
              injection hc' with hcc
              rw [← hcc] at hr'
              exact absurd hr' hr
            · exact Or.inr ⟨ks', hm, c', hc', hr'⟩
        obtain ⟨err, hv, hshape⟩ := ih hbad'
        refine ⟨err, ?_, ?_⟩
        · unfold validateScores
          simp only [hf, if_neg hr]
          exact hv
        · rcases hshape with ⟨k, hk1, hk2, hk3⟩ | ⟨k, c', s, h1, h2, h3, h4⟩
          · exact Or.inl ⟨k, hk1, hk2, by simp only [List.map_cons, List.mem_cons]; exact Or.inr hk3⟩
          · exact Or.inr ⟨k, c', s, h1, h2, List.mem_cons_of_mem ks h3, h4⟩

/-- C5: an entry whose scores object holds a key naming no criterion of the
event, or a value outside [1, maxScore] of its criterion, is rejected with a
validation error naming the criterion, resp. carrying the bound. -/
theorem score_bounds_rejected (e : Event) (eid : String) (gp : Option String)
    (sid : String) (store : List Vote) (entry : VoteEntry) (p : Project) (g : Group)
    (scores : List (String × Rat))
    (hp : findProject e entry.projectId = some p)
    (hg : findGroup e entry.groupId = some g)
    (hpw : passwordOk g gp = true)
    (hs : entry.scores = some scores)
    (hbad : (∃ ks ∈ scores, e.criteria.find? (fun c => c.name = ks.1) = none)
      ∨ ∃ ks ∈ scores, ∃ c, e.criteria.find? (fun c => c.name = ks.1) = some c
          ∧ (ks.2 < 1 ∨ c.maxScore < ks.2)) :
    ∃ err, stepEntry e eid gp sid store entry = .error err
      ∧ ((∃ k, err = .criterionMissing k ∧ e.criteria.find? (fun c => c.name = k) = none
            ∧ k ∈ scores.map (fun ks => ks.1))
        ∨ ∃ k c s, err = .scoreOutOfRange k c.maxScore
            ∧ e.criteria.find? (fun c => c.name = k) = some c
            ∧ (k, s) ∈ scores ∧ (s < 1 ∨ c.maxScore < s)) := by
  obtain ⟨err, hv, hshape⟩ := validateScores_some_of_bad e.criteria scores hbad
  refine ⟨err, ?_, hshape⟩
  unfold stepEntry
  simp only [hp, hg, hs]
  rw [if_neg (by simp [hpw])]
  simp only [hv]

/-- Witness for C5: score 11 against maxScore 10 is rejected with the
out-of-range error carrying the bound. -/
theorem score_bounds_rejected_witness :
    (∃ err, stepEntry wEvent "e" none "u" [] wEntry11 = .error err
      ∧ ((∃ k, err = .criterionMissing k ∧ wEvent.criteria.find? (fun c => c.name = k) = none
            ∧ k ∈ ([("c", (11 : Rat))]).map (fun ks => ks.1))
        ∨ ∃ k c s, err = .scoreOutOfRange k c.maxScore
            ∧ wEvent.criteria.find? (fun c => c.name = k) = some c
            ∧ (k, s) ∈ ([("c", (11 : Rat))]) ∧ (s < 1 ∨ c.maxScore < s)))
    ∧ stepEntry wEvent "e" none "u" [] wEntry11 = .error (.scoreOutOfRange "c" 10) :=
  ⟨score_bounds_rejected wEvent "e" none "u" [] wEntry11 wProject wGroupJ
    [("c", 11)] (by decide) (by decide) (by decide) (by decide) (by decide), by rfl⟩

/-- C6 counterexample: an entry whose scores object is empty is *not*
rejected; `submitVote` accepts it and persists a Vote with an empty score
map. -/
theorem empty_scores_accepted_cx :
    submitVote (some wEvent) "e" [wEntryEmpty] none "u" 0 wParse []
      = (.accepted "u" 1, [⟨"e", "p", "1", [], "u"⟩]) := by
  decide

/-- C6 (amended): intake only checks that scores is present and of object
type; an entry with an empty scores mapping passes validation and its vote
(with an empty score map) is persisted. -/
theorem empty_scores_pass_validation (e : Event) (eid : String) (gp : Option String)
    (sid : String) (store : List Vote) (entry : VoteEntry) (p : Project) (g : Group)
    (hp : findProject e entry.projectId = some p)
    (hg : findGroup e entry.groupId = some g)
    (hpw : passwordOk g gp = true)
    (hs : entry.scores = some [])
    (hdup : store.any (fun v =>
      v.event = eid ∧ v.voterSessionId = sid ∧ v.project = entry.projectId) = false) :
    stepEntry e eid gp sid store entry
      = .ok ⟨eid, entry.projectId, entry.groupId, [], sid⟩ := by
  unfold stepEntry
  simp only [hp, hg, hs]
  rw [if_neg (by simp [hpw])]
  simp only [validateScores]
  rw [if_neg (by rw [hdup]; exact Bool.false_ne_true)]

/-- Witness for C6's amended claim at concrete inputs. -/
theorem empty_scores_pass_validation_witness :
    stepEntry wEvent "e" none "u" [] wEntryEmpty = .ok ⟨"e", "p", "1", [], "u"⟩ :=
  empty_scores_pass_validation wEvent "e" none "u" [] wEntryEmpty wProject wGroupJ
    (by decide) (by decide) (by decide) (by decide) (by decide)

theorem pgAvg_eq_specGroupAverage (votes : List Vote) (pid gid : String) :
    pgAvg votes pid gid = specGroupAverage votes pid gid := by
  unfold pgAvg pgOf specGroupAverage
  by_cases h : (votes.filter (fun v => v.project = pid ∧ v.group = gid)).length = 0
  · rw [if_neg (by simp only; omega), if_pos h]
  · rw [if_pos (by simp only; omega), if_neg h]

theorem mem_jsSet_elim {α : Type} (m : JsMap α) (k : String) (v : α)
    (kv : String × α) (h : kv ∈ jsSet m k v) : kv ∈ m ∨ kv = (k, v) := by
  unfold jsSet at h
  by_cases hm : m.any (fun p => p.1 = k)
  · rw [if_pos hm] at h
    rcases List.mem_map.mp h with ⟨kv0, hkv0, heq⟩
    by_cases hk : kv0.1 = k
    · rw [if_pos hk] at heq
      exact Or.inr heq.symm
    · rw [if_neg hk] at heq
      exact Or.inl (heq ▸ hkv0)
  · rw [if_neg hm] at h
    rcases List.mem_append.mp h with h' | h'
    · exact Or.inl h'
    · exact Or.inr (by simpa using h')

theorem allPairs_jsSet {α : Type} (P : String → α → Prop) (m : JsMap α)
    (k : String) (v : α) (hm : ∀ kv ∈ m, P kv.1 kv.2) (hv : P k v) :
    ∀ kv ∈ jsSet m k v, P kv.1 kv.2 := by
  intro kv hkv
  rcases mem_jsSet_elim m k v kv hkv with h | h
  · exact hm kv h
  · rw [h]
    exact hv

theorem allPairs_jsModify {α : Type} (P : String → α → Prop) (m : JsMap α)
    (k : String) (f : α → α) (hm : ∀ kv ∈ m, P kv.1 kv.2)
    (hf : ∀ v, P k v → P k (f v)) :
    ∀ kv ∈ jsModify m k f, P kv.1 kv.2 := by
  intro kv hkv
  rcases List.mem_map.mp hkv with ⟨kv0, hkv0, heq⟩
  by_cases hk : kv0.1 = k
  · rw [if_pos hk] at heq
    rw [← heq, hk]
    exact hf kv0.2 (hk ▸ hm kv0 hkv0)
  · rw [if_neg hk] at heq
    exact heq ▸ hm kv0 hkv0

theorem allPairs_foldlSet {α β : Type} (P : String → β → Prop) (key : α → String)
    (val : α → β) (l : List α) (m0 : JsMap β)
    (h0 : ∀ kv ∈ m0, P kv.1 kv.2) (hl : ∀ x ∈ l, P (key x) (val x)) :
    ∀ kv ∈ l.foldl (fun m x => jsSet m (key x) (val x)) m0, P kv.1 kv.2 := by
  induction l generalizing m0 with
  | nil => exact h0
  | cons x l ih =>
    rw [List.foldl_cons]
    exact ih _ (allPairs_jsSet P m0 (key x) (val x) h0 (hl x (List.mem_cons_self x l)))
      (fun y hy => hl y (List.mem_cons_of_mem x hy))

theorem allPairs_buildMap {α β : Type} (P : String → β → Prop) (key : α → String)
    (val : α → β) (l : List α) (hl : ∀ x ∈ l, P (key x) (val x)) :
    ∀ kv ∈ buildMap key val l, P kv.1 kv.2 :=
  allPairs_foldlSet P key val l [] (by intro kv h; cases h) hl

theorem allPairs_foldlModify {α : Type} (P : String → α → Prop) (ks : List String)
    (F : String → α → α) (m0 : JsMap α) (h0 : ∀ kv ∈ m0, P kv.1 kv.2)
    (hf : ∀ k v, P k v → P k (F k v)) :
    ∀ kv ∈ ks.foldl (fun m k => jsModify m k (F k)) m0, P kv.1 kv.2 := by
  induction ks generalizing m0 with
  | nil => exact h0
  | cons k ks ih =>
    rw [List.foldl_cons]
    exact ih _ (allPairs_jsModify P m0 k (F k) h0 (fun v h => hf k v h))

theorem jsGet_mem {α : Type} (m : JsMap α) (k : String) (v : α)
    (h : jsGet m k = some v) : (k, v) ∈ m := by
  unfold jsGet at h
  rcases hf : m.find? (fun p => p.1 = k) with _ | p
  · rw [hf] at h
    cases h
  · rw [hf] at h
    have hm := List.mem_of_find?_eq_some hf
    have hk : p.1 = k := by
      have := List.find?_some hf
      simpa using this
    injection h with h2
    have : p = (k, v) := by
      rcases p with ⟨a, b⟩
      simp only at hk h2
      rw [hk, h2]
    exact this ▸ hm

theorem applyVote_not_counted (st : AggState) (v : Vote)
    (h : jsGet st.projectResults v.project = none ∨ jsGet st.groupResults v.group = none) :
    applyVote st v = st := by
  unfold applyVote
  rcases h with h | h
  · simp only [h]
  · rcases hp : jsGet st.projectResults v.project with _ | pr
    · simp only [hp]
    · simp only [hp, h]

theorem applyVote_keys (st : AggState) (v : Vote) :
    jsKeys (applyVote st v).projectResults = jsKeys st.projectResults
    ∧ jsKeys (applyVote st v).groupResults = jsKeys st.groupResults
    ∧ jsKeys (applyVote st v).groupVoters = jsKeys st.groupVoters
    ∧ jsKeys (applyVote st v).pgScores = jsKeys st.pgScores := by
  unfold applyVote
  rcases hp : jsGet st.projectResults v.project with _ | pr
  · simp [hp]
  rcases hg : jsGet st.groupResults v.group with _ | gr
  · simp [hp, hg]
  simp only [hp, hg]
  exact ⟨jsKeys_modify _ _ _, jsKeys_modify _ _ _, jsKeys_modify _ _ _, jsKeys_modify _ _ _⟩

theorem foldl_applyVote_keys (votes : List Vote) (st : AggState) :
    jsKeys ((votes.foldl applyVote st).projectResults) = jsKeys st.projectResults
    ∧ jsKeys ((votes.foldl applyVote st).groupResults) = jsKeys st.groupResults
    ∧ jsKeys ((votes.foldl applyVote st).groupVoters) = jsKeys st.groupVoters
    ∧ jsKeys ((votes.foldl applyVote st).pgScores) = jsKeys st.pgScores := by
  induction votes generalizing st with
  | nil => exact ⟨rfl, rfl, rfl, rfl⟩
  | cons v votes ih =>
    rw [List.foldl_cons]
    have h1 := applyVote_keys st v
    have h2 := ih (applyVote st v)
    exact ⟨h2.1.trans h1.1, h2.2.1.trans h1.2.1, h2.2.2.1.trans h1.2.2.1,
      h2.2.2.2.trans h1.2.2.2⟩

theorem foldl_applyVote_allP (P : String → ProjectResult → Prop) (votes : List Vote)
    (st : AggState) (h0 : ∀ kv ∈ st.projectResults, P kv.1 kv.2)
    (hf : ∀ k pr t cs, P k pr →
      P k { pr with voteCount := pr.voteCount + 1, criteriaScores := cs,
                    totalScore := pr.totalScore + t }) :
    ∀ kv ∈ (votes.foldl applyVote st).projectResults, P kv.1 kv.2 := by
  induction votes generalizing st with
  | nil => exact h0
  | cons v votes ih =>
    rw [List.foldl_cons]
    refine ih (applyVote st v) ?_
    unfold applyVote
    rcases hp : jsGet st.projectResults v.project with _ | pr
    · simp only [hp]
      exact h0
    rcases hg : jsGet st.groupResults v.group with _ | gr
    · simp only [hp, hg]
      exact h0
    simp only [hp, hg]
    exact allPairs_jsModify P st.projectResults v.project _ h0
      (fun pr2 h => hf v.project pr2 (voteTotal v) _ h)

theorem foldl_applyVote_allG (P : String → GroupResult → Prop) (votes : List Vote)
    (st : AggState) (h0 : ∀ kv ∈ st.groupResults, P kv.1 kv.2)
    (hf : ∀ k gr t, P k gr →
      P k { gr with voteCount := gr.voteCount + 1, totalScore := gr.totalScore + t }) :
    ∀ kv ∈ (votes.foldl applyVote st).groupResults, P kv.1 kv.2 := by
  induction votes generalizing st with
  | nil => exact h0
  | cons v votes ih =>
    rw [List.foldl_cons]
    refine ih (applyVote st v) ?_
    unfold applyVote
    rcases hp : jsGet st.projectResults v.project with _ | pr
    · simp only [hp]
      exact h0
    rcases hg : jsGet st.groupResults v.group with _ | gr
    · simp only [hp, hg]
      exact h0
    simp only [hp, hg]
    exact allPairs_jsModify P st.groupResults v.group _ h0
      (fun gr2 h => hf v.group gr2 (voteTotal v) h)

theorem initAggState_projectResults (gw : Option (JsMap Rat)) (e : Event) :
    (initAggState gw e).projectResults = initProjectResults e := rfl

theorem initAggState_groupResults (gw : Option (JsMap Rat)) (e : Event) :
    (initAggState gw e).groupResults = initGroupResults gw e := rfl

theorem initAggState_groupVoters (gw : Option (JsMap Rat)) (e : Event) :
    (initAggState gw e).groupVoters = initGroupVoters e := rfl

theorem initAggState_pgScores (gw : Option (JsMap Rat)) (e : Event) :
    (initAggState gw e).pgScores
      = initPGScores (jsKeys (initProjectResults e)) (jsKeys (initGroupResults gw e)) := rfl

theorem groupsFinal_eq (e : Event) (votes : List Vote) (gw : Option (JsMap Rat)) :
    groupsFinal e votes gw
      = setVoterCounts ((votes.foldl applyVote (initAggState gw e)).groupResults)
          ((votes.foldl applyVote (initAggState gw e)).groupVoters) := rfl

theorem jsKeys_initProjectResults (e : Event)
    (h : (e.projects.map (fun p => p.id)).Nodup) :
    jsKeys (initProjectResults e) = e.projects.map (fun p => p.id) :=
  jsKeys_buildMap_nodup _ _ _ h

theorem jsKeys_initGroupResults (gw : Option (JsMap Rat)) (e : Event)
    (h : (e.groups.map (fun g => g.id)).Nodup) :
    jsKeys (initGroupResults gw e) = e.groups.map (fun g => g.id) :=
  jsKeys_buildMap_nodup _ _ _ h

theorem mem_jsKeys_initProjectResults (e : Event) (k : String) :
    k ∈ jsKeys (initProjectResults e) ↔ k ∈ e.projects.map (fun p => p.id) :=
  mem_jsKeys_buildMap _ _ _ k

theorem mem_jsKeys_initGroupResults (gw : Option (JsMap Rat)) (e : Event) (k : String) :
    k ∈ jsKeys (initGroupResults gw e) ↔ k ∈ e.groups.map (fun g => g.id) :=
  mem_jsKeys_buildMap _ _ _ k

theorem pgOf_nil (pid gid : String) : pgOf [] pid gid = ⟨0, 0⟩ := rfl

theorem pgOf_append_single (vs : List Vote) (v : Vote) (pid gid : String) :
    pgOf (vs ++ [v]) pid gid
      = if v.project = pid ∧ v.group = gid
        then ⟨(pgOf vs pid gid).total + voteTotal v, (pgOf vs pid gid).count + 1⟩
        else pgOf vs pid gid := by
  unfold pgOf
  rw [List.filter_append]
  by_cases h : v.project = pid ∧ v.group = gid
  · rw [if_pos h]
    simp [h]
  · rw [if_neg h]
    simp [h]

theorem foldl_applyVote_get_projectResults_ne_none (gw : Option (JsMap Rat)) (e : Event)
    (votes : List Vote) (k : String) (hk : k ∈ e.projects.map (fun p => p.id)) :
    jsGet ((votes.foldl applyVote (initAggState gw e)).projectResults) k ≠ none := by
  intro hnone
  rw [jsGet_eq_none_iff, (foldl_applyVote_keys votes _).1, initAggState_projectResults,
    mem_jsKeys_initProjectResults] at hnone
  exact hnone hk

theorem foldl_applyVote_get_groupResults_ne_none (gw : Option (JsMap Rat)) (e : Event)
    (votes : List Vote) (k : String) (hk : k ∈ e.groups.map (fun g => g.id)) :
    jsGet ((votes.foldl applyVote (initAggState gw e)).groupResults) k ≠ none := by
  intro hnone
  rw [jsGet_eq_none_iff, (foldl_applyVote_keys votes _).2.1, initAggState_groupResults,
    mem_jsKeys_initGroupResults] at hnone
  exact hnone hk

theorem applyVote_eq_of_some (st : AggState) (v : Vote) (pr : ProjectResult)
    (gr : GroupResult) (hp : jsGet st.projectResults v.project = some pr)
    (hg : jsGet st.groupResults v.group = some gr) :
    applyVote st v =
      { projectResults := jsModify st.projectResults v.project (fun pr =>
          { pr with voteCount := pr.voteCount + 1,
                    criteriaScores := addScores pr.criteriaScores v.scores,
                    totalScore := pr.totalScore + voteTotal v }),
        groupResults := jsModify st.groupResults v.group (fun gr =>
          { gr with voteCount := gr.voteCount + 1,
                    totalScore := gr.totalScore + voteTotal v }),
        groupVoters := jsModify st.groupVoters v.group (fun s => setAdd s v.voterSessionId),
        pgScores := jsModify st.pgScores v.project (fun m =>
          jsModify m v.group (fun pg => ⟨pg.total + voteTotal v, pg.count + 1⟩)) } := by
  unfold applyVote
  simp only [hp, hg]

theorem pgScores_spec (gw : Option (JsMap Rat)) (e : Event) (votes : List Vote)
    (hpn : (e.projects.map (fun p => p.id)).Nodup)
    (hgn : (e.groups.map (fun g => g.id)).Nodup)
    (p : Project) (hp : p ∈ e.projects) :
    ∃ inner, jsGet ((votes.foldl applyVote (initAggState gw e)).pgScores) p.id = some inner
      ∧ ∀ g ∈ e.groups, jsGet inner g.id = some (pgOf votes p.id g.id) := by
  induction votes using List.reverseRecOn with
  | nil =>
    refine ⟨buildMap (fun gid => gid) (fun _ => ⟨0, 0⟩) (jsKeys (initGroupResults gw e)), ?_, ?_⟩
    · rw [List.foldl_nil, initAggState_pgScores]
      unfold initPGScores
      have hkeys : jsKeys (initProjectResults e) = e.projects.map (fun p => p.id) :=
        jsKeys_initProjectResults e hpn
      have hmem : p.id ∈ jsKeys (initProjectResults e) := by
        rw [hkeys]
        exact List.mem_map_of_mem _ hp
      have hnd : ((jsKeys (initProjectResults e)).map (fun pid => pid)).Nodup := by
        simpa [hkeys] using hpn
      exact jsGet_buildMap_nodup (fun pid => pid) _ (jsKeys (initProjectResults e)) p.id hmem hnd
    · intro g hg
      rw [jsKeys_initGroupResults gw e hgn]
      have hnd : ((e.groups.map (fun g => g.id)).map (fun gid => gid)).Nodup := by
        simpa using hgn
      have := jsGet_buildMap_nodup (fun gid => gid) (fun _ => (⟨0, 0⟩ : PGStat))
        (e.groups.map (fun g => g.id)) g.id (List.mem_map_of_mem _ hg) hnd
      rw [this, pgOf_nil]
  | append_singleton vs v ih =>
    obtain ⟨inner, hinner, hall⟩ := ih
    rw [List.foldl_append, List.foldl_cons, List.foldl_nil]
    rcases hpj : jsGet ((vs.foldl applyVote (initAggState gw e)).projectResults) v.project
      with _ | pr
    · rw [applyVote_not_counted _ _ (Or.inl hpj)]
      refine ⟨inner, hinner, ?_⟩
      intro g hg
      rw [hall g hg, pgOf_append_single, if_neg (fun hc =>
        foldl_applyVote_get_projectResults_ne_none gw e vs v.project
          (by rw [hc.1]; exact List.mem_map_of_mem _ hp) hpj)]
    rcases hgj : jsGet ((vs.foldl applyVote (initAggState gw e)).groupResults) v.group
      with _ | gr
    · rw [applyVote_not_counted _ _ (Or.inr hgj)]
      refine ⟨inner, hinner, ?_⟩
      intro g hg
      rw [hall g hg, pgOf_append_single, if_neg (fun hc =>
        foldl_applyVote_get_groupResults_ne_none gw e vs v.group
          (by rw [hc.2]; exact List.mem_map_of_mem _ hg) hgj)]
    rw [applyVote_eq_of_some _ _ _ _ hpj hgj]
    dsimp only
    by_cases hvp : v.project = p.id
    · refine ⟨jsModify inner v.group (fun pg => ⟨pg.total + voteTotal v, pg.count + 1⟩), ?_, ?_⟩
      · rw [← hvp, jsGet_modify_self, hvp, hinner]
        rfl
      · intro g hg
        by_cases hvg : v.group = g.id
        · rw [← hvg, jsGet_modify_self, hvg, hall g hg]
          rw [Option.map_some', pgOf_append_single, if_pos ⟨hvp, hvg⟩]
        · rw [jsGet_modify_ne _ _ _ _ (fun hc => hvg hc.symm), hall g hg,
            pgOf_append_single, if_neg (fun hc => hvg hc.2)]
    · refine ⟨inner, ?_, ?_⟩
      · rw [jsGet_modify_ne _ _ _ _ (fun hc => hvp hc.symm), hinner]
      · intro g hg
        rw [hall g hg, pgOf_append_single, if_neg (fun hc => hvp hc.1)]

theorem groupsFinal_get (gw : Option (JsMap Rat)) (e : Event) (votes : List Vote)
    (hgn : (e.groups.map (fun g => g.id)).Nodup) (g : Group) (hg : g ∈ e.groups) :
    ∃ gr, jsGet (groupsFinal e votes gw) g.id = some gr
      ∧ gr.name = g.name ∧ gr.weight = effectiveWeight gw g ∧ gr.id = g.id ∧ gr.rank = 0 := by
  have hkeys : jsKeys ((votes.foldl applyVote (initAggState gw e)).groupResults)
      = e.groups.map (fun g => g.id) := by
    rw [(foldl_applyVote_keys votes _).2.1, initAggState_groupResults,
      jsKeys_initGroupResults gw e hgn]
  have hP := foldl_applyVote_allG
    (fun (k : String) (v : GroupResult) => k = g.id →
      v.name = g.name ∧ v.weight = effectiveWeight gw g ∧ v.id = g.id ∧ v.rank = 0)
    votes (initAggState gw e)
    (by
      rw [initAggState_groupResults]
      unfold initGroupResults
      refine allPairs_buildMap
        (fun (k : String) (v : GroupResult) => k = g.id →
          v.name = g.name ∧ v.weight = effectiveWeight gw g ∧ v.id = g.id ∧ v.rank = 0)
        (fun g => g.id) (initGroupResult gw) e.groups ?_
      intro x hx hxg
      have hxeq : x = g := List.inj_on_of_nodup_map hgn hx hg hxg
      rw [hxeq]
      exact ⟨rfl, rfl, rfl, rfl⟩)
    (by
      intro k gr t h hk
      obtain ⟨h1, h2, h3, h4⟩ := h hk
      exact ⟨h1, h2, h3, h4⟩)
  have hmem : g.id ∈ jsKeys ((votes.foldl applyVote (initAggState gw e)).groupResults) := by
    rw [hkeys]
    exact List.mem_map_of_mem _ hg
  rcases hg0 : jsGet ((votes.foldl applyVote (initAggState gw e)).groupResults) g.id
    with _ | gr0
  · exact absurd ((jsGet_eq_none_iff _ _).mp hg0) (by simpa using hmem)
  have hfields := hP (g.id, gr0) (jsGet_mem _ _ _ hg0) rfl
  rw [groupsFinal_eq]
  unfold setVoterCounts
  rw [jsGet_foldlModify_nodup _ _ _ g.id hmem (by rw [hkeys]; exact hgn), hg0]
  exact ⟨_, rfl, hfields.1, hfields.2.1, hfields.2.2.1, hfields.2.2.2⟩

theorem projectsFinal_eq (e : Event) (votes : List Vote) (gw : Option (JsMap Rat)) :
    projectsFinal e votes gw
      = setFinalScores (groupsFinal e votes gw)
          (setProjectAverages (jsKeys (groupsFinal e votes gw)) (groupIdToName e)
            ((votes.foldl applyVote (initAggState gw e)).pgScores)
            ((votes.foldl applyVote (initAggState gw e)).projectResults)) := rfl

theorem jsKeys_groupsFinal (e : Event) (votes : List Vote) (gw : Option (JsMap Rat))
    (hgn : (e.groups.map (fun g => g.id)).Nodup) :
    jsKeys (groupsFinal e votes gw) = e.groups.map (fun g => g.id) := by
  rw [groupsFinal_eq]
  unfold setVoterCounts
  rw [jsKeys_foldlModify, (foldl_applyVote_keys votes _).2.1, initAggState_groupResults,
    jsKeys_initGroupResults gw e hgn]

theorem averagesPass_id (gids : List String) (idToName : JsMap String)
    (pgs : JsMap (JsMap PGStat)) (pid : String) (pr : ProjectResult) :
    (averagesPass gids idToName pgs pid pr).id = pr.id := by
  unfold averagesPass
  dsimp only
  split <;> rfl

theorem averagesPass_rank (gids : List String) (idToName : JsMap String)
    (pgs : JsMap (JsMap PGStat)) (pid : String) (pr : ProjectResult) :
    (averagesPass gids idToName pgs pid pr).rank = pr.rank := by
  unfold averagesPass
  dsimp only
  split <;> rfl

theorem averagesPass_groupAverages (gids : List String) (idToName : JsMap String)
    (pgs : JsMap (JsMap PGStat)) (pid : String) (pr : ProjectResult) :
    (averagesPass gids idToName pgs pid pr).groupAverages
      = gids.foldl (gaStep idToName (innerOf pgs pid)) pr.groupAverages := by
  unfold averagesPass
  dsimp only
  congr 1
  split <;> rfl

theorem finalScorePass_id (grs : JsMap GroupResult) (pr : ProjectResult) :
    (finalScorePass grs pr).id = pr.id := rfl

theorem finalScorePass_rank (grs : JsMap GroupResult) (pr : ProjectResult) :
    (finalScorePass grs pr).rank = pr.rank := rfl

theorem finalScorePass_groupAverages (grs : JsMap GroupResult) (pr : ProjectResult) :
    (finalScorePass grs pr).groupAverages = pr.groupAverages := rfl

theorem finalScorePass_finalScore (grs : JsMap GroupResult) (pr : ProjectResult) :
    (finalScorePass grs pr).finalScore
      = (if ((jsKeys grs).foldl (wsStep grs pr.groupAverages) ((0 : Rat), (0 : Rat))).2 > 0
         then ((jsKeys grs).foldl (wsStep grs pr.groupAverages) ((0 : Rat), (0 : Rat))).1
            / ((jsKeys grs).foldl (wsStep grs pr.groupAverages) ((0 : Rat), (0 : Rat))).2
         else 0) := rfl

theorem jsGet_groupIdToName (e : Event) (hgn : (e.groups.map (fun g => g.id)).Nodup)
    (g : Group) (hg : g ∈ e.groups) :
    jsGet (groupIdToName e) g.id = some g.name := by
  unfold groupIdToName
  exact jsGet_buildMap_nodup (fun g => g.id) (fun g => g.name) e.groups g hg hgn

theorem projectsFinal_get (gw : Option (JsMap Rat)) (e : Event) (votes : List Vote)
    (hpn : (e.projects.map (fun p => p.id)).Nodup)
    (hgn : (e.groups.map (fun g => g.id)).Nodup)
    (p : Project) (hp : p ∈ e.projects) :
    ∃ pr, jsGet (projectsFinal e votes gw) p.id = some pr
      ∧ pr.id = p.id ∧ pr.rank = 0
      ∧ pr.groupAverages
          = buildMap (fun g => g.name) (fun g => pgAvg votes p.id g.id) e.groups
      ∧ pr.finalScore =
          (if (e.groups.map (fun g => effectiveWeight gw g)).sum > 0
           then (e.groups.map (fun g =>
              (match jsGet (buildMap (fun g => g.name)
                  (fun g => pgAvg votes p.id g.id) e.groups) g.name with
                | some a => a
                | none => 0) * effectiveWeight gw g)).sum
              / (e.groups.map (fun g => effectiveWeight gw g)).sum
           else 0) := by
  have hkP : jsKeys ((votes.foldl applyVote (initAggState gw e)).projectResults)
      = e.projects.map (fun p => p.id) := by
    rw [(foldl_applyVote_keys votes _).1, initAggState_projectResults,
      jsKeys_initProjectResults e hpn]
  have hmemP : p.id ∈ jsKeys ((votes.foldl applyVote (initAggState gw e)).projectResults) := by
    rw [hkP]
    exact List.mem_map_of_mem _ hp
  -- the record produced for p by the votes loop
  rcases h0 : jsGet ((votes.foldl applyVote (initAggState gw e)).projectResults) p.id
    with _ | pr0
  · exact absurd ((jsGet_eq_none_iff _ _).mp h0) (by simpa using hmemP)
  have hP0 := foldl_applyVote_allP
    (fun (k : String) (v : ProjectResult) => v.id = k ∧ v.rank = 0 ∧ v.groupAverages = [])
    votes (initAggState gw e)
    (by
      rw [initAggState_projectResults]
      unfold initProjectResults
      refine allPairs_buildMap
        (fun (k : String) (v : ProjectResult) => v.id = k ∧ v.rank = 0 ∧ v.groupAverages = [])
        (fun p => p.id) initProjectResult e.projects ?_
      intro x hx
      exact ⟨rfl, rfl, rfl⟩)
    (by
      intro k pr t cs h
      exact ⟨h.1, h.2.1, h.2.2⟩)
  have hfields0 := hP0 (p.id, pr0) (jsGet_mem _ _ _ h0)
  -- the record after the averages pass
  have h1 : jsGet (setProjectAverages (jsKeys (groupsFinal e votes gw)) (groupIdToName e)
        ((votes.foldl applyVote (initAggState gw e)).pgScores)
        ((votes.foldl applyVote (initAggState gw e)).projectResults)) p.id
      = some (averagesPass (jsKeys (groupsFinal e votes gw)) (groupIdToName e)
          ((votes.foldl applyVote (initAggState gw e)).pgScores) p.id pr0) := by
    unfold setProjectAverages
    rw [jsGet_foldlModify_nodup _ _ _ p.id hmemP (by rw [hkP]; exact hpn), h0]
    rfl
  -- the pgScores inner map for p
  obtain ⟨inner, hinner, hall⟩ := pgScores_spec gw e votes hpn hgn p hp
  have hInnerOf : innerOf ((votes.foldl applyVote (initAggState gw e)).pgScores) p.id
      = inner := by
    unfold innerOf
    rw [hinner]
  -- the groupAverages map written by the averages pass
  have hga : (averagesPass (jsKeys (groupsFinal e votes gw)) (groupIdToName e)
        ((votes.foldl applyVote (initAggState gw e)).pgScores) p.id pr0).groupAverages
      = buildMap (fun g => g.name) (fun g => pgAvg votes p.id g.id) e.groups := by
    rw [averagesPass_groupAverages, hfields0.2.2, hInnerOf,
      jsKeys_groupsFinal e votes gw hgn, List.foldl_map]
    unfold buildMap
    apply List.foldl_ext
    intro gm g hg
    unfold gaStep
    rw [hall g hg, jsGet_groupIdToName e hgn g hg]
    rfl
  -- the record after the final-score pass
  have hmem1 : p.id ∈ jsKeys (setProjectAverages (jsKeys (groupsFinal e votes gw))
      (groupIdToName e) ((votes.foldl applyVote (initAggState gw e)).pgScores)
      ((votes.foldl applyVote (initAggState gw e)).projectResults)) := by
    unfold setProjectAverages
    rw [jsKeys_foldlModify]
    exact hmemP
  have hnd1 : (jsKeys (setProjectAverages (jsKeys (groupsFinal e votes gw))
      (groupIdToName e) ((votes.foldl applyVote (initAggState gw e)).pgScores)
      ((votes.foldl applyVote (initAggState gw e)).projectResults))).Nodup := by
    unfold setProjectAverages
    rw [jsKeys_foldlModify, hkP]
    exact hpn
  have h2 : jsGet (projectsFinal e votes gw) p.id
      = some (finalScorePass (groupsFinal e votes gw)
          (averagesPass (jsKeys (groupsFinal e votes gw)) (groupIdToName e)
            ((votes.foldl applyVote (initAggState gw e)).pgScores) p.id pr0)) := by
    rw [projectsFinal_eq]
    unfold setFinalScores
    rw [jsGet_foldlModify_nodup _ _ _ p.id hmem1 hnd1, h1]
    rfl
  -- weighted-sum computation of the final-score pass
  have hws : ((jsKeys (groupsFinal e votes gw)).foldl
        (wsStep (groupsFinal e votes gw)
          (buildMap (fun g => g.name) (fun g => pgAvg votes p.id g.id) e.groups))
        ((0 : Rat), (0 : Rat)))
      = ((e.groups.map (fun g =>
            (match jsGet (buildMap (fun g => g.name)
                (fun g => pgAvg votes p.id g.id) e.groups) g.name with
              | some a => a
              | none => 0) * effectiveWeight gw g)).sum,
         (e.groups.map (fun g => effectiveWeight gw g)).sum) := by
    rw [jsKeys_groupsFinal e votes gw hgn, List.foldl_map]
    rw [List.foldl_ext _ (fun acc g =>
        (acc.1 + (match jsGet (buildMap (fun g => g.name)
            (fun g => pgAvg votes p.id g.id) e.groups) g.name with
          | some a => a
          | none => 0) * effectiveWeight gw g,
         acc.2 + effectiveWeight gw g)) ((0 : Rat), (0 : Rat)) ?_]
    · rw [foldl_pair_sum]
      simp
    · intro acc g hg
      obtain ⟨gr, hgr, hname, hweight, _, _⟩ := groupsFinal_get gw e votes hgn g hg
      unfold wsStep
      rw [hgr]
      dsimp only
      rw [hname, hweight]
  refine ⟨finalScorePass (groupsFinal e votes gw)
      (averagesPass (jsKeys (groupsFinal e votes gw)) (groupIdToName e)
        ((votes.foldl applyVote (initAggState gw e)).pgScores) p.id pr0), h2, ?_, ?_, ?_, ?_⟩
  · rw [finalScorePass_id, averagesPass_id]
    exact hfields0.1
  · rw [finalScorePass_rank, averagesPass_rank]
    exact hfields0.2.1
  · rw [finalScorePass_groupAverages]
    exact hga
  · rw [finalScorePass_finalScore, hga, hws]

theorem projectsFinal_pairs_id (e : Event) (votes : List Vote) (gw : Option (JsMap Rat)) :
    ∀ kv ∈ projectsFinal e votes gw, (kv : String × ProjectResult).2.id = kv.1 := by
  rw [projectsFinal_eq]
  unfold setFinalScores
  refine allPairs_foldlModify (fun (k : String) (v : ProjectResult) => v.id = k) _ _ _ ?_ ?_
  · unfold setProjectAverages
    refine allPairs_foldlModify (fun (k : String) (v : ProjectResult) => v.id = k) _ _ _ ?_ ?_
    · refine foldl_applyVote_allP (fun (k : String) (v : ProjectResult) => v.id = k)
        votes _ ?_ ?_
      · rw [initAggState_projectResults]
        unfold initProjectResults
        refine allPairs_buildMap (fun (k : String) (v : ProjectResult) => v.id = k)
          (fun p => p.id) initProjectResult e.projects ?_
        intro x hx
        rfl
      · intro k pr t cs h
        exact h
    · intro k v h
      rw [averagesPass_id]
      exact h
  · intro k v h
    rw [finalScorePass_id]
    exact h

theorem projectsFinal_pairs_rank (e : Event) (votes : List Vote) (gw : Option (JsMap Rat)) :
    ∀ kv ∈ projectsFinal e votes gw, (kv : String × ProjectResult).2.rank = 0 := by
  rw [projectsFinal_eq]
  unfold setFinalScores
  refine allPairs_foldlModify (fun (k : String) (v : ProjectResult) => v.rank = 0) _ _ _ ?_ ?_
  · unfold setProjectAverages
    refine allPairs_foldlModify (fun (k : String) (v : ProjectResult) => v.rank = 0) _ _ _ ?_ ?_
    · refine foldl_applyVote_allP (fun (k : String) (v : ProjectResult) => v.rank = 0)
        votes _ ?_ ?_
      · rw [initAggState_projectResults]
        unfold initProjectResults
        refine allPairs_buildMap (fun (k : String) (v : ProjectResult) => v.rank = 0)
          (fun p => p.id) initProjectResult e.projects ?_
        intro x hx
        rfl
      · intro k pr t cs h
        exact h
    · intro k v h
      rw [averagesPass_rank]
      exact h
  · intro k v h
    rw [finalScorePass_rank]
    exact h

theorem jsKeys_projectsFinal (e : Event) (votes : List Vote) (gw : Option (JsMap Rat))
    (hpn : (e.projects.map (fun p => p.id)).Nodup) :
    jsKeys (projectsFinal e votes gw) = e.projects.map (fun p => p.id) := by
  rw [projectsFinal_eq]
  unfold setFinalScores setProjectAverages
  rw [jsKeys_foldlModify, jsKeys_foldlModify, (foldl_applyVote_keys votes _).1,
    initAggState_projectResults, jsKeys_initProjectResults e hpn]

theorem mem_calculateResults_projects (e : Event) (votes : List Vote)
    (gw : Option (JsMap Rat)) (hpn : (e.projects.map (fun p => p.id)).Nodup)
    (r : ProjectResult) (hr : r ∈ (calculateResults e votes gw).projects) :
    ∃ p ∈ e.projects, jsGet (projectsFinal e votes gw) p.id = some { r with rank := 0 }
      ∧ r.id = p.id := by
  unfold calculateResults at hr
  obtain ⟨r0, hr0, m, hm⟩ := mem_assignProjectRanks 0 _ r hr
  have hr0' : r0 ∈ jsValues (projectsFinal e votes gw) := List.mem_mergeSort.mp hr0
  obtain ⟨k, hk⟩ := (mem_jsValues _ r0).mp hr0'
  have hid : r0.id = k := projectsFinal_pairs_id e votes gw (k, r0) hk
  have hrank0 : r0.rank = 0 := projectsFinal_pairs_rank e votes gw (k, r0) hk
  have hmm : r = { r0 with rank := m } := hm
  have hstrip : { r with rank := 0 } = r0 := by
    rw [hmm]
    cases r0
    simp only at hrank0
    simp [hrank0]
  have hkmem : k ∈ jsKeys (projectsFinal e votes gw) := by
    unfold jsKeys
    exact List.mem_map_of_mem _ hk
  rw [jsKeys_projectsFinal e votes gw hpn] at hkmem
  rcases List.mem_map.mp hkmem with ⟨p, hp, hpid⟩
  refine ⟨p, hp, ?_, ?_⟩
  · rw [hstrip, hpid]
    refine jsGet_of_mem_nodup _ _ _ (hid ▸ hk) ?_
    rw [jsKeys_projectsFinal e votes gw hpn]
    exact hpn
  · rw [hmm]
    show r0.id = p.id
    rw [hid, hpid]

theorem effectiveWeight_none (g : Group) : effectiveWeight none g = g.weight := rfl

/-- C1: every ranked project record's finalScore equals the weighted mean of
its per-group average scores — sum over groups of (groupAverage * weight)
divided by the sum of the weights — and is exactly 0 when the total group
weight is 0 (weights are persisted in [0, 100]; group ids and names are
distinct, as generated by the store). -/
theorem final_score_weighted_mean (e : Event) (votes : List Vote)
    (hpn : (e.projects.map (fun p => p.id)).Nodup)
    (hgn : (e.groups.map (fun g => g.id)).Nodup)
    (hnames : (e.groups.map (fun g => g.name)).Nodup)
    (hw : ∀ g ∈ e.groups, 0 ≤ g.weight)
    (r : ProjectResult) (hr : r ∈ (calculateResults e votes none).projects) :
    ((e.groups.map (fun g => g.weight)).sum = 0 → r.finalScore = 0)
    ∧ ((e.groups.map (fun g => g.weight)).sum ≠ 0 →
        r.finalScore
          = (e.groups.map (fun g => specGroupAverage votes r.id g.id * g.weight)).sum
            / (e.groups.map (fun g => g.weight)).sum) := by
  obtain ⟨p, hp, hget, hrid⟩ := mem_calculateResults_projects e votes none hpn r hr
  obtain ⟨pr, hget2, hprid, hprrank, hga, hfs⟩ := projectsFinal_get none e votes hpn hgn p hp
  have hpr : pr = { r with rank := 0 } := by
    rw [hget] at hget2
    exact (Option.some.inj hget2).symm
  rw [hpr] at hfs
  have hWker : (e.groups.map (fun g => effectiveWeight none g))
      = e.groups.map (fun g => g.weight) := rfl
  constructor
  · intro hW0
    rw [show r.finalScore = ({ r with rank := 0 } : ProjectResult).finalScore from rfl, hfs,
      hWker, hW0]
    norm_num
  · intro hWne
    have hpos : (0 : Rat) < (e.groups.map (fun g => g.weight)).sum := by
      refine lt_of_le_of_ne (List.sum_nonneg ?_) (Ne.symm hWne)
      intro x hx
      rcases List.mem_map.mp hx with ⟨g, hg, rfl⟩
      exact hw g hg
    rw [show r.finalScore = ({ r with rank := 0 } : ProjectResult).finalScore from rfl, hfs,
      hWker, if_pos hpos]
    congr 1
    refine congrArg List.sum (List.map_congr_left ?_)
    intro g hg
    rw [jsGet_buildMap_nodup (fun g => g.name) (fun g => pgAvg votes p.id g.id)
      e.groups g hg hnames]
    show pgAvg votes p.id g.id * effectiveWeight none g
      = specGroupAverage votes r.id g.id * g.weight
    rw [pgAvg_eq_specGroupAverage, hrid, effectiveWeight_none]


theorem headI_mem {α : Type} [Inhabited α] (l : List α) (h : l ≠ []) : l.headI ∈ l := by
  cases l with
  | nil => exact absurd rfl h
  | cons a t => exact List.mem_cons_self a t

theorem calculateResults_projects_length (e : Event) (votes : List Vote)
    (gw : Option (JsMap Rat)) (hpn : (e.projects.map (fun p => p.id)).Nodup) :
    (calculateResults e votes gw).projects.length = e.projects.length := by
  unfold calculateResults
  rw [length_assignProjectRanks, List.length_mergeSort]
  have hvk : (jsValues (projectsFinal e votes gw)).length
      = (jsKeys (projectsFinal e votes gw)).length := by
    simp [jsValues, jsKeys]
  rw [hvk, jsKeys_projectsFinal e votes gw hpn, List.length_map]


/-- Witness for C1: groups "J" (weight 70, average 10) and "P" (weight 30,
average 4) give a ranked record whose finalScore is (10*70 + 4*30)/100
= 8.2 = 41/5. -/
theorem final_score_weighted_mean_witness :
    ∃ r, r ∈ (calculateResults wEvent [wVoteJ, wVoteP] none).projects
      ∧ r.finalScore = 41 / 5 := by
  have hne : (calculateResults wEvent [wVoteJ, wVoteP] none).projects ≠ [] := by
    have hlen := calculateResults_projects_length wEvent [wVoteJ, wVoteP] none (by decide)
    intro hc
    rw [hc] at hlen
    simp [wEvent] at hlen
  have hr : (calculateResults wEvent [wVoteJ, wVoteP] none).projects.headI
      ∈ (calculateResults wEvent [wVoteJ, wVoteP] none).projects := headI_mem _ hne
  obtain ⟨p, hp, -, hrid⟩ :=
    mem_calculateResults_projects wEvent [wVoteJ, wVoteP] none (by decide) _ hr
  have hpw : p = wProject := by simpa [wEvent] using hp
  have hid : ((calculateResults wEvent [wVoteJ, wVoteP] none).projects.headI).id = "p" := by
    rw [hrid, hpw]
    rfl
  have h := final_score_weighted_mean wEvent [wVoteJ, wVoteP] (by decide) (by decide)
    (by decide) (by decide) _ hr
  refine ⟨_, hr, ?_⟩
  rw [h.2 (by norm_num [wEvent, wGroupJ, wGroupP]), hid]
  simp [wEvent, wGroupJ, wGroupP, specGroupAverage, voteTotal, wVoteJ, wVoteP]
  norm_num

/-- C10: when an event's two groups share a name, the later group's average
overwrites the earlier one's in every project's groupAverages, and the
finalScore computation multiplies both groups' weights by that single
surviving average. -/
theorem dup_group_name_overwrite (e : Event) (votes : List Vote)
    (hpn : (e.projects.map (fun p => p.id)).Nodup)
    (g1 g2 : Group) (hgs : e.groups = [g1, g2])
    (hid : g1.id ≠ g2.id) (hname : g1.name = g2.name)
    (r : ProjectResult) (hr : r ∈ (calculateResults e votes none).projects) :
    jsGet r.groupAverages g1.name = some (specGroupAverage votes r.id g2.id)
    ∧ (g1.weight + g2.weight > 0 →
        r.finalScore = (specGroupAverage votes r.id g2.id * g1.weight
            + specGroupAverage votes r.id g2.id * g2.weight)
          / (g1.weight + g2.weight)) := by
  have hgn : (e.groups.map (fun g => g.id)).Nodup := by
    rw [hgs]
    simp [hid]
  obtain ⟨p, hp, hget, hrid⟩ := mem_calculateResults_projects e votes none hpn r hr
  obtain ⟨pr, hget2, hprid, hprrank, hga, hfs⟩ := projectsFinal_get none e votes hpn hgn p hp
  have hpr : pr = { r with rank := 0 } := by
    rw [hget] at hget2
    exact (Option.some.inj hget2).symm
  rw [hpr] at hfs hga
  rw [hgs] at hfs hga
  have hGA : buildMap (fun g => g.name) (fun g => pgAvg votes p.id g.id) [g1, g2]
      = jsSet (jsSet [] g1.name (pgAvg votes p.id g1.id)) g2.name (pgAvg votes p.id g2.id) :=
    rfl
  have hlook1 : jsGet (buildMap (fun g => g.name)
      (fun g => pgAvg votes p.id g.id) [g1, g2]) g1.name
      = some (pgAvg votes p.id g2.id) := by
    rw [hGA, hname, jsGet_set_self]
  have hlook2 : jsGet (buildMap (fun g => g.name)
      (fun g => pgAvg votes p.id g.id) [g1, g2]) g2.name
      = some (pgAvg votes p.id g2.id) := by
    rw [hGA, jsGet_set_self]
  constructor
  · rw [show r.groupAverages = ({ r with rank := 0 } : ProjectResult).groupAverages from rfl,
      hga, hlook1, pgAvg_eq_specGroupAverage, hrid]
  · intro hWpos
    rw [show r.finalScore = ({ r with rank := 0 } : ProjectResult).finalScore from rfl, hfs]
    simp only [List.map_cons, List.map_nil, List.sum_cons, List.sum_nil, add_zero,
      effectiveWeight_none, hlook1, hlook2]
    rw [if_pos hWpos, pgAvg_eq_specGroupAverage, hrid]


/-- Witness for C10: two groups named "J" with weights 70 and 30 and
per-group averages 10 and 4; the surviving average is the later group's 4,
and finalScore is (4*70 + 4*30)/100 = 4. -/
theorem dup_group_name_overwrite_witness :
    ∃ r, r ∈ (calculateResults wEventDup [wVoteJ, wVoteP] none).projects
      ∧ jsGet r.groupAverages "J" = some 4 ∧ r.finalScore = 4 := by
  have hne : (calculateResults wEventDup [wVoteJ, wVoteP] none).projects ≠ [] := by
    have hlen := calculateResults_projects_length wEventDup [wVoteJ, wVoteP] none (by decide)
    intro hc
    rw [hc] at hlen
    simp [wEventDup, wEvent] at hlen
  have hr : (calculateResults wEventDup [wVoteJ, wVoteP] none).projects.headI
      ∈ (calculateResults wEventDup [wVoteJ, wVoteP] none).projects := headI_mem _ hne
  obtain ⟨p, hp, -, hrid⟩ :=
    mem_calculateResults_projects wEventDup [wVoteJ, wVoteP] none (by decide) _ hr
  have hpw : p = wProject := by simpa [wEventDup, wEvent] using hp
  have hid : ((calculateResults wEventDup [wVoteJ, wVoteP] none).projects.headI).id
      = "p" := by
    rw [hrid, hpw]
    rfl
  have h := dup_group_name_overwrite wEventDup [wVoteJ, wVoteP] (by decide)
    wGroupJ wGroupJ2 rfl (by decide) rfl _ hr
  refine ⟨_, hr, ?_, ?_⟩
  · rw [show ("J" : String) = wGroupJ.name from rfl, h.1, hid]
    simp [specGroupAverage, voteTotal, wVoteJ, wVoteP, wGroupJ2]
  · rw [h.2 (by norm_num [wGroupJ, wGroupJ2]), hid]
    simp [specGroupAverage, voteTotal, wVoteJ, wVoteP, wGroupJ, wGroupJ2]
    norm_num

theorem applyVote_skip (gw : Option (JsMap Rat)) (e : Event) (vs : List Vote) (v : Vote)
    (h : v.project ∉ e.projects.map (fun p => p.id)
      ∨ v.group ∉ e.groups.map (fun g => g.id)) :
    applyVote (vs.foldl applyVote (initAggState gw e)) v
      = vs.foldl applyVote (initAggState gw e) := by
  apply applyVote_not_counted
  rcases h with h | h
  · left
    rw [jsGet_eq_none_iff, (foldl_applyVote_keys vs _).1, initAggState_projectResults,
      mem_jsKeys_initProjectResults]
    exact h
  · right
    rw [jsGet_eq_none_iff, (foldl_applyVote_keys vs _).2.1, initAggState_groupResults,
      mem_jsKeys_initGroupResults]
    exact h

/-- C9: a vote whose project id or group id does not occur in the event's
embedded lists is excluded from every per-project, per-criterion and
per-group statistic — removing it leaves `calculateResults` unchanged —
yet the results endpoints still count it in totalVotes, and its session id
still enters the distinct totalVoters count (raising it by one when the
session id is otherwise unseen). -/
theorem orphan_vote_excluded_but_counted (e : Event) (gw : Option (JsMap Rat))
    (vs1 vs2 : List Vote) (v : Vote)
    (h : v.project ∉ e.projects.map (fun p => p.id)
      ∨ v.group ∉ e.groups.map (fun g => g.id)) :
    calculateResults e (vs1 ++ v :: vs2) gw = calculateResults e (vs1 ++ vs2) gw
    ∧ totalVotes (vs1 ++ v :: vs2) = totalVotes (vs1 ++ vs2) + 1
    ∧ (v.voterSessionId ∉ (vs1 ++ vs2).map (fun w => w.voterSessionId) →
        totalVoters (vs1 ++ v :: vs2) = totalVoters (vs1 ++ vs2) + 1)
    ∧ (v.voterSessionId ∈ (vs1 ++ vs2).map (fun w => w.voterSessionId) →
        totalVoters (vs1 ++ v :: vs2) = totalVoters (vs1 ++ vs2)) := by
  have hfold : (vs1 ++ v :: vs2).foldl applyVote (initAggState gw e)
      = (vs1 ++ vs2).foldl applyVote (initAggState gw e) := by
    rw [List.foldl_append, List.foldl_append, List.foldl_cons, applyVote_skip gw e vs1 v h]
  refine ⟨?_, ?_, ?_, ?_⟩
  · unfold calculateResults projectsFinal groupsFinal
    rw [hfold]
  · unfold totalVotes
    simp
    omega
  · intro hfresh
    unfold totalVoters
    rw [← List.card_toFinset, ← List.card_toFinset]
    simp only [List.map_append, List.map_cons, List.toFinset_append, List.toFinset_cons,
      Finset.union_insert]
    rw [Finset.card_insert_of_not_mem]
    intro hc
    refine hfresh ?_
    have := Finset.mem_union.mp hc
    rcases this with hc1 | hc1
    · rw [List.map_append, List.mem_append]
      exact Or.inl (List.mem_toFinset.mp hc1)
    · rw [List.map_append, List.mem_append]
      exact Or.inr (List.mem_toFinset.mp hc1)
  · intro hseen
    unfold totalVoters
    rw [← List.card_toFinset, ← List.card_toFinset]
    simp only [List.map_append, List.map_cons, List.toFinset_append, List.toFinset_cons,
      Finset.union_insert]
    rw [Finset.insert_eq_self.mpr]
    rw [List.map_append] at hseen
    rcases List.mem_append.mp hseen with hc | hc
    · exact Finset.mem_union.mpr (Or.inl (List.mem_toFinset.mpr hc))
    · exact Finset.mem_union.mpr (Or.inr (List.mem_toFinset.mpr hc))

/-- Witness for C9: a vote for an unknown project id is invisible to the
aggregation but counted by totalVotes and totalVoters. -/
theorem orphan_vote_excluded_but_counted_witness :
    calculateResults wEvent [⟨"e", "q", "1", [("c", 5)], "w"⟩, wVoteJ, wVoteP] none
      = calculateResults wEvent [wVoteJ, wVoteP] none
    ∧ totalVotes [⟨"e", "q", "1", [("c", 5)], "w"⟩, wVoteJ, wVoteP]
      = totalVotes [wVoteJ, wVoteP] + 1
    ∧ totalVoters [⟨"e", "q", "1", [("c", 5)], "w"⟩, wVoteJ, wVoteP]
      = totalVoters [wVoteJ, wVoteP] + 1 := by
  have h := orphan_vote_excluded_but_counted wEvent none []
    [wVoteJ, wVoteP] ⟨"e", "q", "1", [("c", 5)], "w"⟩ (Or.inl (by decide))
  exact ⟨h.1, h.2.1, h.2.2.1 (by decide)⟩

theorem calculateResults_groups_length (e : Event) (votes : List Vote)
    (gw : Option (JsMap Rat)) (hgn : (e.groups.map (fun g => g.id)).Nodup) :
    (calculateResults e votes gw).groups.length = e.groups.length := by
  unfold calculateResults
  rw [length_assignGroupRanks, List.length_mergeSort]
  have hvk : (jsValues (groupsFinal e votes gw)).length
      = (jsKeys (groupsFinal e votes gw)).length := by
    simp [jsValues, jsKeys]
  rw [hvk, jsKeys_groupsFinal e votes gw hgn, List.length_map]

theorem averagesPass_totalScore_of_voteCount_zero (gids : List String)
    (idToName : JsMap String) (pgs : JsMap (JsMap PGStat)) (pid : String)
    (pr : ProjectResult) (h : pr.voteCount = 0) :
    (averagesPass gids idToName pgs pid pr).totalScore = pr.totalScore
    ∧ (averagesPass gids idToName pgs pid pr).averageScore = pr.averageScore
    ∧ (averagesPass gids idToName pgs pid pr).voteCount = pr.voteCount
    ∧ (averagesPass gids idToName pgs pid pr).finalScore = pr.finalScore := by
  unfold averagesPass
  dsimp only
  rw [if_neg (by omega)]
  exact ⟨rfl, rfl, rfl, rfl⟩

theorem averagesPass_finalScore (gids : List String) (idToName : JsMap String)
    (pgs : JsMap (JsMap PGStat)) (pid : String) (pr : ProjectResult) :
    (averagesPass gids idToName pgs pid pr).finalScore = pr.finalScore := by
  unfold averagesPass
  dsimp only
  split <;> rfl

theorem gaStep_fold_zero (idToName : JsMap String) (inner : JsMap PGStat)
    (hin : ∀ kv ∈ inner, (kv : String × PGStat).2 = ⟨0, 0⟩) (gids : List String)
    (gm : JsMap Rat) (hgm : ∀ kv ∈ gm, (kv : String × Rat).2 = 0) :
    ∀ kv ∈ gids.foldl (gaStep idToName inner) gm, (kv : String × Rat).2 = 0 := by
  induction gids generalizing gm with
  | nil => exact hgm
  | cons k gids ih =>
    rw [List.foldl_cons]
    refine ih _ ?_
    unfold gaStep
    dsimp only
    have havg : (if (match jsGet inner k with
          | some x => x
          | none => (⟨0, 0⟩ : PGStat)).count > 0
        then (match jsGet inner k with
          | some x => x
          | none => (⟨0, 0⟩ : PGStat)).total
          / (((match jsGet inner k with
            | some x => x
            | none => (⟨0, 0⟩ : PGStat)).count : Nat) : Rat)
        else 0) = 0 := by
      rcases hl : jsGet inner k with _ | x
      · simp
      · have hx : x = ⟨0, 0⟩ := hin (k, x) (jsGet_mem _ _ _ hl)
        simp [hx]
    rw [havg]
    intro kv hkv
    rcases mem_jsSet_elim _ _ _ kv hkv with hm | hm
    · exact hgm kv hm
    · rw [hm]

theorem wsStep_fold_zero (grs : JsMap GroupResult) (ga : JsMap Rat)
    (hga : ∀ kv ∈ ga, (kv : String × Rat).2 = 0) (ks : List String) (a b : Rat)
    (ha : a = 0) : (ks.foldl (wsStep grs ga) (a, b)).1 = 0 := by
  induction ks generalizing a b with
  | nil => exact ha
  | cons k ks ih =>
    rw [List.foldl_cons]
    unfold wsStep
    rcases hg : jsGet grs k with _ | g
    · simp only [hg]
      exact ih a b ha
    · simp only [hg]
      refine ih _ _ ?_
      rcases hl : jsGet ga g.name with _ | x
      · simp only [hl]
        rw [ha]
        ring
      · have hx : x = 0 := hga (g.name, x) (jsGet_mem _ _ _ hl)
        simp only [hl]
        rw [ha, hx]
        ring

theorem finalScorePass_finalScore_zero (grs : JsMap GroupResult) (pr : ProjectResult)
    (hga : ∀ kv ∈ pr.groupAverages, (kv : String × Rat).2 = 0) :
    (finalScorePass grs pr).finalScore = 0 := by
  rw [finalScorePass_finalScore]
  rw [wsStep_fold_zero grs pr.groupAverages hga (jsKeys grs) 0 0 rfl]
  split <;> simp

theorem initPGScores_all_zero (pids gids : List String) :
    ∀ kv ∈ initPGScores pids gids,
      ∀ kv2 ∈ (kv : String × JsMap PGStat).2, (kv2 : String × PGStat).2 = ⟨0, 0⟩ := by
  unfold initPGScores
  refine allPairs_buildMap
    (fun (k : String) (v : JsMap PGStat) => ∀ kv2 ∈ v, (kv2 : String × PGStat).2 = ⟨0, 0⟩)
    _ _ _ ?_
  intro x hx
  refine allPairs_buildMap (fun (k : String) (v : PGStat) => v = ⟨0, 0⟩) _ _ _ ?_
  intro y hy
  rfl

theorem projectsFinal_nil_values (e : Event) (gw : Option (JsMap Rat)) :
    ∀ kv ∈ projectsFinal e [] gw,
      (kv : String × ProjectResult).2.totalScore = 0 ∧ kv.2.voteCount = 0
      ∧ kv.2.averageScore = 0 ∧ kv.2.finalScore = 0 := by
  have hmain : ∀ kv ∈ projectsFinal e [] gw,
      (fun (k : String) (v : ProjectResult) =>
        v.totalScore = 0 ∧ v.voteCount = 0 ∧ v.averageScore = 0 ∧ v.finalScore = 0
          ∧ ∀ kv2 ∈ v.groupAverages, (kv2 : String × Rat).2 = 0) kv.1 kv.2 := by
    rw [projectsFinal_eq]
    unfold setFinalScores
    refine allPairs_foldlModify (fun (k : String) (v : ProjectResult) =>
        v.totalScore = 0 ∧ v.voteCount = 0 ∧ v.averageScore = 0 ∧ v.finalScore = 0
          ∧ ∀ kv2 ∈ v.groupAverages, (kv2 : String × Rat).2 = 0) _ _ _ ?_ ?_
    · unfold setProjectAverages
      refine allPairs_foldlModify (fun (k : String) (v : ProjectResult) =>
        v.totalScore = 0 ∧ v.voteCount = 0 ∧ v.averageScore = 0 ∧ v.finalScore = 0
          ∧ ∀ kv2 ∈ v.groupAverages, (kv2 : String × Rat).2 = 0) _ _ _ ?_ ?_
      · rw [List.foldl_nil, initAggState_projectResults]
        unfold initProjectResults
        refine allPairs_buildMap (fun (k : String) (v : ProjectResult) =>
        v.totalScore = 0 ∧ v.voteCount = 0 ∧ v.averageScore = 0 ∧ v.finalScore = 0
          ∧ ∀ kv2 ∈ v.groupAverages, (kv2 : String × Rat).2 = 0) (fun p => p.id) initProjectResult e.projects ?_
        intro x hx
        refine ⟨rfl, rfl, rfl, rfl, ?_⟩
        intro kv2 hkv2
        cases hkv2
      · intro pid v hv
        obtain ⟨h1, h2, h3, h4, h5⟩ := hv
        obtain ⟨e1, e2, e3, e4⟩ :=
          averagesPass_totalScore_of_voteCount_zero
            (jsKeys (groupsFinal e [] gw)) (groupIdToName e)
            ((([] : List Vote).foldl applyVote (initAggState gw e)).pgScores) pid v h2
        refine ⟨e1.trans h1, e3.trans h2, e2.trans h3, e4.trans h4, ?_⟩
        rw [averagesPass_groupAverages]
        refine gaStep_fold_zero _ _ ?_ _ _ h5
        intro kv2 hkv2
        unfold innerOf at hkv2
        rcases hpg : jsGet ((([] : List Vote).foldl applyVote
            (initAggState gw e)).pgScores) pid with _ | mm
        · rw [hpg] at hkv2
          cases hkv2
        · rw [hpg] at hkv2
          have hmem := jsGet_mem _ _ _ hpg
          rw [List.foldl_nil, initAggState_pgScores] at hmem
          exact initPGScores_all_zero _ _ (pid, mm) hmem kv2 hkv2
    · intro pid v hv
      obtain ⟨h1, h2, h3, h4, h5⟩ := hv
      refine ⟨h1, h2, h3, ?_, h5⟩
      exact finalScorePass_finalScore_zero _ v h5
  intro kv hkv
  obtain ⟨h1, h2, h3, h4, _⟩ := hmain kv hkv
  exact ⟨h1, h2, h3, h4⟩

theorem groupsFinal_nil_values (e : Event) (gw : Option (JsMap Rat)) :
    ∀ kv ∈ groupsFinal e [] gw,
      (kv : String × GroupResult).2.totalScore = 0 ∧ kv.2.voteCount = 0
      ∧ kv.2.voterCount = 0 := by
  rw [groupsFinal_eq]
  unfold setVoterCounts
  refine allPairs_foldlModify
    (fun (k : String) (v : GroupResult) =>
      v.totalScore = 0 ∧ v.voteCount = 0 ∧ v.voterCount = 0) _ _ _ ?_ ?_
  · rw [List.foldl_nil, initAggState_groupResults]
    unfold initGroupResults
    refine allPairs_buildMap
      (fun (k : String) (v : GroupResult) =>
        v.totalScore = 0 ∧ v.voteCount = 0 ∧ v.voterCount = 0)
      (fun g => g.id) (initGroupResult gw) e.groups ?_
    intro x hx
    exact ⟨rfl, rfl, rfl⟩
  · intro gid v hv
    refine ⟨hv.1, hv.2.1, ?_⟩
    rcases hgv : jsGet ((([] : List Vote).foldl applyVote
        (initAggState gw e)).groupVoters) gid with _ | s
    · simp only [hgv]
    · simp only [hgv]
      have hmem := jsGet_mem _ _ _ hgv
      rw [List.foldl_nil, initAggState_groupVoters] at hmem
      unfold initGroupVoters at hmem
      have hempty : s = [] := by
        have := allPairs_buildMap
          (fun (k : String) (v : List String) => v = []) (fun g => g.id)
          (fun _ => []) e.groups (fun x hx => rfl) (gid, s) hmem
        exact this
      rw [hempty]
      rfl

/-- C8 counterexample: an event with one embedded project and zero votes
yields a non-empty ranked projects list — the lists are not empty. -/
theorem zero_votes_nonempty_cx :
    (calculateResults wEvent [] none).projects ≠ [] := by
  have hlen := calculateResults_projects_length wEvent [] none (by decide)
  intro hc
  rw [hc] at hlen
  simp [wEvent] at hlen

/-- C8 (amended): with zero votes the aggregation succeeds: it returns one
ranked record per embedded project/group, each with all-zero statistics, and
totalVoters is 0; the ranked lists are empty exactly when the event has no
projects / groups. -/
theorem zero_votes_results (e : Event) (gw : Option (JsMap Rat))
    (hpn : (e.projects.map (fun p => p.id)).Nodup)
    (hgn : (e.groups.map (fun g => g.id)).Nodup) :
    (calculateResults e [] gw).projects.length = e.projects.length
    ∧ (calculateResults e [] gw).groups.length = e.groups.length
    ∧ (∀ r ∈ (calculateResults e [] gw).projects,
        r.totalScore = 0 ∧ r.voteCount = 0 ∧ r.averageScore = 0 ∧ r.finalScore = 0)
    ∧ (∀ r ∈ (calculateResults e [] gw).groups,
        r.totalScore = 0 ∧ r.voteCount = 0 ∧ r.voterCount = 0)
    ∧ totalVoters ([] : List Vote) = 0
    ∧ (e.projects = [] → (calculateResults e [] gw).projects = [])
    ∧ (e.groups = [] → (calculateResults e [] gw).groups = []) := by
  refine ⟨calculateResults_projects_length e [] gw hpn,
    calculateResults_groups_length e [] gw hgn, ?_, ?_, rfl, ?_, ?_⟩
  · intro r hr
    unfold calculateResults at hr
    obtain ⟨r0, hr0, m, hm⟩ := mem_assignProjectRanks 0 _ r hr
    obtain ⟨k, hk⟩ := (mem_jsValues _ r0).mp (List.mem_mergeSort.mp hr0)
    have hz := projectsFinal_nil_values e gw (k, r0) hk
    rw [hm]
    exact ⟨hz.1, hz.2.1, hz.2.2.1, hz.2.2.2⟩
  · intro r hr
    unfold calculateResults at hr
    obtain ⟨r0, hr0, m, hm⟩ := mem_assignGroupRanks 0 _ r hr
    obtain ⟨k, hk⟩ := (mem_jsValues _ r0).mp (List.mem_mergeSort.mp hr0)
    have hz := groupsFinal_nil_values e gw (k, r0) hk
    rw [hm]
    exact ⟨hz.1, hz.2.1, hz.2.2⟩
  · intro hpe
    refine List.length_eq_zero.mp ?_
    rw [calculateResults_projects_length e [] gw hpn, hpe]
    rfl
  · intro hge
    refine List.length_eq_zero.mp ?_
    rw [calculateResults_groups_length e [] gw hgn, hge]
    rfl

/-- Witness for C8's amended claim: the single-project, two-group event with
zero votes. -/
theorem zero_votes_results_witness :
    (calculateResults wEvent [] none).projects.length = wEvent.projects.length
    ∧ (calculateResults wEvent [] none).groups.length = wEvent.groups.length
    ∧ (∀ r ∈ (calculateResults wEvent [] none).projects,
        r.totalScore = 0 ∧ r.voteCount = 0 ∧ r.averageScore = 0 ∧ r.finalScore = 0)
    ∧ (∀ r ∈ (calculateResults wEvent [] none).groups,
        r.totalScore = 0 ∧ r.voteCount = 0 ∧ r.voterCount = 0)
    ∧ totalVoters ([] : List Vote) = 0
    ∧ (wEvent.projects = [] → (calculateResults wEvent [] none).projects = [])
    ∧ (wEvent.groups = [] → (calculateResults wEvent [] none).groups = []) :=
  zero_votes_results wEvent none (by decide) (by decide)

theorem projLE_trans : ∀ a b c : ProjectResult,
    projLE a b → projLE b c → projLE a c := by
  intro a b c hab hbc
  unfold projLE at *
  exact decide_eq_true (le_trans (of_decide_eq_true hbc) (of_decide_eq_true hab))

theorem projLE_total : ∀ a b : ProjectResult, projLE a b || projLE b a := by
  intro a b
  unfold projLE
  rcases le_total a.finalScore b.finalScore with h | h
  · simp [h]
  · simp [h]

theorem groupLE_trans : ∀ a b c : GroupResult,
    groupLE a b → groupLE b c → groupLE a c := by
  intro a b c hab hbc
  unfold groupLE at *
  exact decide_eq_true (le_trans (of_decide_eq_true hbc) (of_decide_eq_true hab))

theorem groupLE_total : ∀ a b : GroupResult, groupLE a b || groupLE b a := by
  intro a b
  unfold groupLE
  rcases le_total a.totalScore b.totalScore with h | h
  · simp [h]
  · simp [h]

theorem pairwise_assignProjectRanks (R : ProjectResult → ProjectResult → Prop)
    (hR : ∀ a b m m', R a b → R { a with rank := m } { b with rank := m' })
    (n : Nat) (l : List ProjectResult) (h : l.Pairwise R) :
    (assignProjectRanks n l).Pairwise R := by
  induction l generalizing n with
  | nil => exact List.Pairwise.nil
  | cons p l ih =>
    rcases List.pairwise_cons.mp h with ⟨hhead, htail⟩
    refine List.pairwise_cons.mpr ⟨?_, ih (n + 1) htail⟩
    intro b hb
    obtain ⟨b0, hb0, m, hbm⟩ := mem_assignProjectRanks (n + 1) l b hb
    rw [hbm]
    exact hR p b0 (n + 1) m (hhead b0 hb0)

theorem pairwise_assignGroupRanks (R : GroupResult → GroupResult → Prop)
    (hR : ∀ a b m m', R a b → R { a with rank := m } { b with rank := m' })
    (n : Nat) (l : List GroupResult) (h : l.Pairwise R) :
    (assignGroupRanks n l).Pairwise R := by
  induction l generalizing n with
  | nil => exact List.Pairwise.nil
  | cons p l ih =>
    rcases List.pairwise_cons.mp h with ⟨hhead, htail⟩
    refine List.pairwise_cons.mpr ⟨?_, ih (n + 1) htail⟩
    intro b hb
    obtain ⟨b0, hb0, m, hbm⟩ := mem_assignGroupRanks (n + 1) l b hb
    rw [hbm]
    exact hR p b0 (n + 1) m (hhead b0 hb0)

theorem groupsFinal_pairs (e : Event) (votes : List Vote) (gw : Option (JsMap Rat)) :
    ∀ kv ∈ groupsFinal e votes gw,
      (kv : String × GroupResult).2.id = kv.1 ∧ kv.2.rank = 0 := by
  rw [groupsFinal_eq]
  unfold setVoterCounts
  refine allPairs_foldlModify
    (fun (k : String) (v : GroupResult) => v.id = k ∧ v.rank = 0) _ _ _ ?_ ?_
  · refine foldl_applyVote_allG
      (fun (k : String) (v : GroupResult) => v.id = k ∧ v.rank = 0) votes _ ?_ ?_
    · rw [initAggState_groupResults]
      unfold initGroupResults
      refine allPairs_buildMap
        (fun (k : String) (v : GroupResult) => v.id = k ∧ v.rank = 0)
        (fun g => g.id) (initGroupResult gw) e.groups ?_
      intro x hx
      exact ⟨rfl, rfl⟩
    · intro k gr t h
      exact h
  · intro k v h
    exact h

theorem map_clearRankP_of_rank_zero (l : List ProjectResult)
    (h : ∀ r ∈ l, r.rank = 0) : l.map clearRankP = l := by
  have : l.map clearRankP = l.map id := by
    apply List.map_congr_left
    intro r hr
    have hr0 := h r hr
    cases r
    simp only at hr0
    simp [clearRankP, hr0]
  rw [this, List.map_id]

theorem map_clearRankG_of_rank_zero (l : List GroupResult)
    (h : ∀ r ∈ l, r.rank = 0) : l.map clearRankG = l := by
  have : l.map clearRankG = l.map id := by
    apply List.map_congr_left
    intro r hr
    have hr0 := h r hr
    cases r
    simp only at hr0
    simp [clearRankG, hr0]
  rw [this, List.map_id]

theorem rank_zero_values_projectsFinal (e : Event) (votes : List Vote)
    (gw : Option (JsMap Rat)) :
    ∀ r ∈ jsValues (projectsFinal e votes gw), r.rank = 0 := by
  intro r hr
  obtain ⟨k, hk⟩ := (mem_jsValues _ r).mp hr
  exact projectsFinal_pairs_rank e votes gw (k, r) hk

theorem rank_zero_values_groupsFinal (e : Event) (votes : List Vote)
    (gw : Option (JsMap Rat)) :
    ∀ r ∈ jsValues (groupsFinal e votes gw), r.rank = 0 := by
  intro r hr
  obtain ⟨k, hk⟩ := (mem_jsValues _ r).mp hr
  exact (groupsFinal_pairs e votes gw (k, r) hk).2

theorem map_clearRankP_calculateResults (e : Event) (votes : List Vote)
    (gw : Option (JsMap Rat)) :
    ((calculateResults e votes gw).projects).map clearRankP
      = (jsValues (projectsFinal e votes gw)).mergeSort projLE := by
  have hout : (calculateResults e votes gw).projects
      = assignProjectRanks 0 ((jsValues (projectsFinal e votes gw)).mergeSort projLE) := rfl
  rw [hout, map_clearRankP_assignProjectRanks]
  apply map_clearRankP_of_rank_zero
  intro r hr
  exact rank_zero_values_projectsFinal e votes gw r (List.mem_mergeSort.mp hr)

theorem map_clearRankG_calculateResults (e : Event) (votes : List Vote)
    (gw : Option (JsMap Rat)) :
    ((calculateResults e votes gw).groups).map clearRankG
      = (jsValues (groupsFinal e votes gw)).mergeSort groupLE := by
  have hout : (calculateResults e votes gw).groups
      = assignGroupRanks 0 ((jsValues (groupsFinal e votes gw)).mergeSort groupLE) := rfl
  rw [hout, map_clearRankG_assignGroupRanks]
  apply map_clearRankG_of_rank_zero
  intro r hr
  exact rank_zero_values_groupsFinal e votes gw r (List.mem_mergeSort.mp hr)

/-- C7: the aggregator returns projects sorted descending by finalScore and
groups sorted descending by totalScore; ties retain encounter order — the
order of the event's embedded lists, which is exactly the pre-sort record
order — and each record's rank is its 1-based sorted position. -/
theorem ranking_sorted_stable_ranked (e : Event) (votes : List Vote)
    (gw : Option (JsMap Rat))
    (hpn : (e.projects.map (fun p => p.id)).Nodup)
    (hgn : (e.groups.map (fun g => g.id)).Nodup) :
    (calculateResults e votes gw).projects.Pairwise
        (fun a b => b.finalScore ≤ a.finalScore)
    ∧ (calculateResults e votes gw).groups.Pairwise
        (fun a b => b.totalScore ≤ a.totalScore)
    ∧ (∀ i, (h : i < (calculateResults e votes gw).projects.length) →
        ((calculateResults e votes gw).projects.get ⟨i, h⟩).rank = i + 1)
    ∧ (∀ i, (h : i < (calculateResults e votes gw).groups.length) →
        ((calculateResults e votes gw).groups.get ⟨i, h⟩).rank = i + 1)
    ∧ ((calculateResults e votes gw).projects.map clearRankP).Perm
        (jsValues (projectsFinal e votes gw))
    ∧ ((calculateResults e votes gw).groups.map clearRankG).Perm
        (jsValues (groupsFinal e votes gw))
    ∧ (∀ a b, List.Sublist [a, b] (jsValues (projectsFinal e votes gw)) →
        a.finalScore = b.finalScore →
        List.Sublist [a, b] (((calculateResults e votes gw).projects).map clearRankP))
    ∧ (∀ a b, List.Sublist [a, b] (jsValues (groupsFinal e votes gw)) →
        a.totalScore = b.totalScore →
        List.Sublist [a, b] (((calculateResults e votes gw).groups).map clearRankG))
    ∧ (jsValues (projectsFinal e votes gw)).map (fun r => r.id)
        = e.projects.map (fun p => p.id)
    ∧ (jsValues (groupsFinal e votes gw)).map (fun r => r.id)
        = e.groups.map (fun g => g.id) := by
  have houtP : (calculateResults e votes gw).projects
      = assignProjectRanks 0 ((jsValues (projectsFinal e votes gw)).mergeSort projLE) := rfl
  have houtG : (calculateResults e votes gw).groups
      = assignGroupRanks 0 ((jsValues (groupsFinal e votes gw)).mergeSort groupLE) := rfl
  refine ⟨?_, ?_, ?_, ?_, ?_, ?_, ?_, ?_, ?_, ?_⟩
  · rw [houtP]
    refine pairwise_assignProjectRanks _ (fun a b m m' hab => hab) 0 _ ?_
    refine List.Pairwise.imp ?_ (List.sorted_mergeSort projLE_trans projLE_total _)
    intro a b hab
    exact of_decide_eq_true hab
  · rw [houtG]
    refine pairwise_assignGroupRanks _ (fun a b m m' hab => hab) 0 _ ?_
    refine List.Pairwise.imp ?_ (List.sorted_mergeSort groupLE_trans groupLE_total _)
    intro a b hab
    exact of_decide_eq_true hab
  · intro i h
    rw [List.get_eq_getElem]
    have h2 : i < ((jsValues (projectsFinal e votes gw)).mergeSort projLE).length := by
      rw [houtP, length_assignProjectRanks] at h
      exact h
    have := getElem_assignProjectRanks 0 _ i (houtP ▸ h) h2
    simp only [houtP]
    rw [this]
    simp
  · intro i h
    rw [List.get_eq_getElem]
    have h2 : i < ((jsValues (groupsFinal e votes gw)).mergeSort groupLE).length := by
      rw [houtG, length_assignGroupRanks] at h
      exact h
    have := getElem_assignGroupRanks 0 _ i (houtG ▸ h) h2
    simp only [houtG]
    rw [this]
    simp
  · rw [map_clearRankP_calculateResults]
    exact List.mergeSort_perm _ _
  · rw [map_clearRankG_calculateResults]
    exact List.mergeSort_perm _ _
  · intro a b hsub hfs
    rw [map_clearRankP_calculateResults]
    refine List.pair_sublist_mergeSort projLE_trans projLE_total ?_ hsub
    exact decide_eq_true (le_of_eq hfs.symm)
  · intro a b hsub hts
    rw [map_clearRankG_calculateResults]
    refine List.pair_sublist_mergeSort groupLE_trans groupLE_total ?_ hsub
    exact decide_eq_true (le_of_eq hts.symm)
  · have : (jsValues (projectsFinal e votes gw)).map (fun r => r.id)
        = jsKeys (projectsFinal e votes gw) := by
      unfold jsValues jsKeys
      rw [List.map_map]
      apply List.map_congr_left
      intro kv hkv
      exact projectsFinal_pairs_id e votes gw kv hkv
    rw [this, jsKeys_projectsFinal e votes gw hpn]
  · have : (jsValues (groupsFinal e votes gw)).map (fun r => r.id)
        = jsKeys (groupsFinal e votes gw) := by
      unfold jsValues jsKeys
      rw [List.map_map]
      apply List.map_congr_left
      intro kv hkv
      exact (groupsFinal_pairs e votes gw kv hkv).1
    rw [this, jsKeys_groupsFinal e votes gw hgn]

/-- Witness for C7 at the concrete two-group, one-project event. -/
theorem ranking_sorted_stable_ranked_witness :
    (calculateResults wEvent [wVoteJ, wVoteP] none).projects.Pairwise
        (fun a b => b.finalScore ≤ a.finalScore)
    ∧ (calculateResults wEvent [wVoteJ, wVoteP] none).groups.Pairwise
        (fun a b => b.totalScore ≤ a.totalScore)
    ∧ (∀ i, (h : i < (calculateResults wEvent [wVoteJ, wVoteP] none).projects.length) →
        ((calculateResults wEvent [wVoteJ, wVoteP] none).projects.get ⟨i, h⟩).rank = i + 1)
    ∧ (∀ i, (h : i < (calculateResults wEvent [wVoteJ, wVoteP] none).groups.length) →
        ((calculateResults wEvent [wVoteJ, wVoteP] none).groups.get ⟨i, h⟩).rank = i + 1)
    ∧ ((calculateResults wEvent [wVoteJ, wVoteP] none).projects.map clearRankP).Perm
        (jsValues (projectsFinal wEvent [wVoteJ, wVoteP] none))
    ∧ ((calculateResults wEvent [wVoteJ, wVoteP] none).groups.map clearRankG).Perm
        (jsValues (groupsFinal wEvent [wVoteJ, wVoteP] none))
    ∧ (∀ a b, List.Sublist [a, b] (jsValues (projectsFinal wEvent [wVoteJ, wVoteP] none)) →
        a.finalScore = b.finalScore →
        List.Sublist [a, b]
          (((calculateResults wEvent [wVoteJ, wVoteP] none).projects).map clearRankP))
    ∧ (∀ a b, List.Sublist [a, b] (jsValues (groupsFinal wEvent [wVoteJ, wVoteP] none)) →
        a.totalScore = b.totalScore →
        List.Sublist [a, b]
          (((calculateResults wEvent [wVoteJ, wVoteP] none).groups).map clearRankG))
    ∧ (jsValues (projectsFinal wEvent [wVoteJ, wVoteP] none)).map (fun r => r.id)
        = wEvent.projects.map (fun p => p.id)
    ∧ (jsValues (groupsFinal wEvent [wVoteJ, wVoteP] none)).map (fun r => r.id)
        = wEvent.groups.map (fun g => g.id) :=
  ranking_sorted_stable_ranked wEvent [wVoteJ, wVoteP] none (by decide) (by decide)

end SparkVote
